import Mathlib

/-! fishparser: syntax tree and unparser.

A shallow embedding of `token/token.go`, `ast/ast.go`, `ast/walk.go` and
`ast/print.go` of hulo-io/fishparser, and theorems about the unparser
(`ExprStr`, `String`), the traversal (`Walk`) and the positions (`Pos`, `End`).

Conventions of the embedding.

* A Go interface value (`Expr`, `Stmt`, `Decl`, `Node`) is an inductive type with
  one constructor per implementing node type and a constructor `nil` for the nil
  interface.
* A Go pointer to a struct stored in a field (`*Ident`, `*BlockStmt`, the sixteen
  embedded payload pointers of `ParamExp`, the elements of `[]*IfStmt` and
  `[]*CaseClause`) is an `Option`; `none` is the nil pointer.
* A run that dereferences a nil pointer panics; functions that can panic return
  `Option`, and `none` is the panic.
* Go `int` and `token.Pos` are `Int`; the sum of two values of type `int` is the
  exact sum wrapped around to 64 bits (`go.wrapInt`).
* An interface value that holds a nil pointer of a node type is not modelled.
* `printer.Visit` returns the nil visitor for every node, so each `Walk(p, n)` of
  the printer is the call `p.Visit(n)` and nothing more (`Walk_printer`); the
  embedding of the printer calls `Visit` directly.
* `Walk` can recurse without end; it takes a bound on the depth of its
  recursion and returns `none` when the bound is exceeded.
-/

namespace go

/-- The largest value of the type `int`, of 64 bits. -/
def maxInt : Int := 9223372036854775807

/-- The smallest value of the type `int`. -/
def minInt : Int := -9223372036854775808

/-- The value of type `int` that an operation with the exact result `x` yields:
`x` wrapped around to 64 bits in two's complement. -/
def wrapInt (x : Int) : Int :=
  (x + 9223372036854775808) % 18446744073709551616 - 9223372036854775808

end go

namespace token

/-- `type Pos int`. -/
abbrev Pos := Int

/-- `const NoPos Pos = 0`. -/
def NoPos : Pos := 0

/-- `func (p Pos) IsValid() bool`. -/
def Pos.IsValid (p : Pos) : Bool := p != NoPos

/-- `type Token string`. -/
abbrev Token := String

def NONE : Token := ""
def SPACE : Token := " "
def MUL : Token := "*"
def AT : Token := "@"
def BACK_QUOTE : Token := "`"
def LT : Token := "<"
def GT : Token := ">"
def LPAREN : Token := "("
def RPAREN : Token := ")"
def LBRACE : Token := "\x7b"
def RBRACE : Token := "\x7d"
def BITOR : Token := "|"
def ASSIGN : Token := "="
def IF : Token := "if"
def ELSE : Token := "else"
def FOR : Token := "for"
def IN : Token := "in"
def WHILE : Token := "while"
def SWITCH : Token := "switch"
def CASE : Token := "case"
def FUNCTION : Token := "function"
def LOCAL : Token := "local"
def RETURN : Token := "return"
def BREAK : Token := "break"
def CONTINUE : Token := "continue"
def END : Token := "end"
def STRING : Token := "STRING"
def NUMBER : Token := "NUMBER"
def WORD : Token := "WORD"

end token

namespace ast
open token

/-! ## Nodes (`ast/ast.go`) -/

/-- `type ExpOperator string`. -/
abbrev ExpOperator := String

structure Comment where
  Hash : Pos
  Text : String

structure CommentGroup where
  List : List (Option Comment)

structure Ident where
  NamePos : Pos
  Name : String

structure DefaultValExp (E : Type) where
  Colon : Pos
  Sub : Pos
  Val : E

structure DefaultValAssignExp (E : Type) where
  Colon : Pos
  Assign : Pos
  Val : E

structure NonNullCheckExp (E : Type) where
  Colon : Pos
  Quest : Pos
  Val : E

structure NonNullExp (E : Type) where
  Colon : Pos
  Add : Pos
  Val : E

structure PrefixExp where
  Bitnot : Pos
  Mul : Pos

structure PrefixArrayExp where
  Bitnot : Pos
  At : Pos

structure ArrayIndexExp where
  Bitnot : Pos
  Lbracket : Pos
  Tok : Token
  TokPos : Pos
  Rbracket : Pos

structure DelPrefix (E : Type) where
  Longest : Bool
  Hash : Pos
  Val : E

structure DelSuffix (E : Type) where
  Longest : Bool
  Mod : Pos
  Val : E

structure SubstringExp where
  Colon1 : Pos
  Offset : Int
  Colon2 : Pos
  Length : Int

structure ReplaceExp where
  All : Bool
  Div1 : Pos
  Old : String
  Div2 : Pos
  New : String

structure ReplacePrefixExp where
  Div1 : Pos
  Hash : Pos
  Old : String
  Div2 : Pos
  New : String

structure ReplaceSuffixExp where
  Div1 : Pos
  Mod : Pos
  Old : String
  Div2 : Pos
  New : String

structure LengthExp where
  Hash : Pos

structure CaseConversionExp where
  FirstChar : Bool
  ToUpper : Bool

structure OperatorExp where
  At : Pos
  Op : ExpOperator

/-- The struct `ParamExp`, over the type `E` of expressions: the base variable and
sixteen embedded payload pointers, in the order of the declaration. -/
structure ParamExp (E : Type) where
  Dollar : Pos
  Lbrace : Pos
  Var : E
  DefaultValExp : Option (DefaultValExp E)
  DefaultValAssignExp : Option (DefaultValAssignExp E)
  NonNullCheckExp : Option (NonNullCheckExp E)
  NonNullExp : Option (NonNullExp E)
  PrefixExp : Option PrefixExp
  PrefixArrayExp : Option PrefixArrayExp
  ArrayIndexExp : Option ArrayIndexExp
  LengthExp : Option LengthExp
  DelPrefix : Option (DelPrefix E)
  DelSuffix : Option (DelSuffix E)
  SubstringExp : Option SubstringExp
  ReplaceExp : Option ReplaceExp
  ReplacePrefixExp : Option ReplacePrefixExp
  ReplaceSuffixExp : Option ReplaceSuffixExp
  CaseConversionExp : Option CaseConversionExp
  OperatorExp : Option OperatorExp
  Rbrace : Pos

/-- The interface `Expr`: nil, or a pointer to one of the eleven expression
structs. -/
inductive Expr where
  | nil
  | BinaryExpr (Compress : Bool) (X : Expr) (OpPos : Pos) (Op : Token) (Y : Expr)
  | CallExpr (Func : Option Ident) (Recv : List Expr)
  | Ident (x : Ident)
  | BasicLit (Kind : Token) (Value : String) (ValuePos : Pos)
  | BasicTestExpr (Lbrack : Pos) (X : Expr) (Rbrack : Pos)
  | ExtendedTestExpr (Lbrack : Pos) (X : Expr) (Rbrack : Pos)
  | ArithEvalExpr (Lparen : Pos) (X : Expr) (Rparen : Pos)
  | CmdSubst (Dollar : Pos) (Tok : Token) (Opening : Pos) (X : Expr) (Closing : Pos)
  | ProcSubst (Tok : Token) (TokPos : Pos) (Lparen : Pos) (X : Expr) (Rparen : Pos)
  | ArithExp (Dollar : Pos) (Lparen : Pos) (X : Expr) (Rparen : Pos)
  | ParamExp (x : ParamExp Expr)

structure BlockStmt (S : Type) where
  Tok : Token
  Opening : Pos
  List : List S
  Closing : Pos

structure CaseClause (S : Type) where
  Case : Pos
  Conds : List Expr
  Body : Option (BlockStmt S)

mutual
/-- The interface `Stmt`: nil, or a pointer to one of the ten statement structs. -/
inductive Stmt where
  | nil
  | AssignStmt (Local : Bool) (Lhs : Expr) (Assign : Pos) (Rhs : Expr)
  | BlockStmt (b : BlockStmt Stmt)
  | ExprStmt (X : Expr)
  | ReturnStmt (Return : Pos) (X : Expr)
  | BreakStmt (Break : Pos)
  | ContinueStmt (Continue : Pos)
  | WhileStmt (While : Pos) (Cond : Expr) (Body : Option (BlockStmt Stmt)) (EndPos : Pos)
  | ForeachStmt (For : Pos) (Elem : Expr) (In : Pos) (Group : List Expr)
      (Body : Option (BlockStmt Stmt)) (EndPos : Pos)
  | IfStmt (s : IfStmt)
  | SwitchStmt (Switch : Pos) (Lparen : Pos) (Var : Expr) (Rparen : Pos)
      (Cases : List (Option (CaseClause Stmt))) (Else : Option (BlockStmt Stmt)) (EndPos : Pos)
/-- The struct `IfStmt`; `Elif` is a slice of pointers to `IfStmt`. -/
inductive IfStmt where
  | mk (If : Pos) (Cond : Expr) (Body : Option (BlockStmt Stmt)) (Elif : List (Option IfStmt))
      (Else : Option (BlockStmt Stmt)) (EndPos : Pos)
end

structure FuncDecl where
  Function : Pos
  Name : Option Ident
  Recv : List Expr
  Body : Option (BlockStmt Stmt)
  EndPos : Pos

/-- The interface `Decl`: nil, or a pointer to a `FuncDecl`. -/
inductive Decl where
  | nil
  | FuncDecl (d : FuncDecl)

structure File where
  Doc : Option CommentGroup
  Stmts : List Stmt
  Decls : List Decl

/-- The interface `Node`: nil, a `*File`, a declaration, a statement, an
expression, a `*Comment` or a `*CommentGroup`. -/
inductive Node where
  | nil
  | File (f : File)
  | Decl (d : Decl)
  | Stmt (s : Stmt)
  | Expr (e : Expr)
  | Comment (c : Comment)
  | CommentGroup (g : CommentGroup)

end ast

/-! ## Library functions used by the unparser (`strings`, `fmt`) -/

namespace strings

/-- `strings.Join(elems, sep)`. -/
def Join : List String → String → String
  | [], _ => ""
  | [a], _ => a
  | a :: b :: rest, sep => a ++ sep ++ Join (b :: rest) sep

end strings

namespace fmt
open token

/-- What `fmt` writes for a `token.Pos` field under the verb `%s`: the verb does
not apply to an integer, so the bad-verb form with the type and the decimal
value is written. -/
def badVerbPos (p : Pos) : String := "%!s(token.Pos=" ++ toString p ++ ")"

/-- What `fmt.Sprintf` writes for an operand of interface type `Expr` under the
verb `%s`. No node type has a `String` or `Error` method, so the operand is
printed by reflection: the nil interface as `%!s(<nil>)`, a pointer to a struct
as `&` followed by the struct's fields between braces, separated by blanks, each
field under the same verb (a string as it is, a `token.Pos` as `badVerbPos`).
For a struct with pointer- or interface-typed fields the text of the fields
involves what those pointers point to and, further down, their addresses; that
text is the parameter `fields`. -/
def verbS (fields : ast.Expr → String) : ast.Expr → String
  | .nil => "%!s(<nil>)"
  | .Ident x => "&\x7b" ++ badVerbPos x.NamePos ++ " " ++ x.Name ++ "\x7d"
  | .BasicLit k v p => "&\x7b" ++ k ++ " " ++ v ++ " " ++ badVerbPos p ++ "\x7d"
  | e => "&\x7b" ++ fields e ++ "\x7d"

/-- What `fmt.Sprintf` writes for an `int` operand under `%d`. -/
def verbD (n : Int) : String := toString n

/-- The text `fmt.Fprintln` writes for string operands: the operands separated
by single blanks, then a newline. -/
def Sprintln (toks : List String) : String := strings.Join toks " " ++ "\n"

end fmt

namespace ast
open token

/-! ## Expression rendering (`ast/print.go`) -/

mutual
/-- `func ExprStr(e Expr) string`. The result is `none` when the run panics on
a nil pointer. In the `CallExpr` case the call `ExprListStr(e.Recv)` is the loop
`ExprListStr.loop` followed by `strings.Join`. -/
def ExprStr (fields : Expr → String) : Expr → Option String
  | .Ident x => some x.Name
  | .BasicLit k v _ =>
      if k == STRING then some ("\"" ++ v ++ "\"") else some v
  | .CallExpr f recv => do
      let i ← f
      let res ← ExprListStr.loop fields recv
      pure (i.Name ++ " " ++ strings.Join res " ")
  | .BasicTestExpr _ x _ => do
      let s ← ExprStr fields x
      pure ("[ " ++ s ++ " ]")
  | .ExtendedTestExpr _ x _ => do
      let s ← ExprStr fields x
      pure ("[[ " ++ s ++ " ]]")
  | .ArithEvalExpr _ x _ => do
      let s ← ExprStr fields x
      pure ("(( " ++ s ++ " ))")
  | .CmdSubst _ tok _ x _ => do
      let s ← ExprStr fields x
      if tok == LPAREN then pure ("$( " ++ s ++ " )") else pure ("` " ++ s ++ " `")
  | .ProcSubst tok _ _ x _ => do
      let s ← ExprStr fields x
      if tok == token.LT then pure ("<( " ++ s ++ " )") else pure (">( " ++ s ++ " )")
  | .ArithExp _ _ x _ => do
      let s ← ExprStr fields x
      pure ("$(( " ++ s ++ " ))")
  | .BinaryExpr compress x _ op y => do
      let l ← ExprStr fields x
      let r ← ExprStr fields y
      if op == NONE then
        if compress then pure (l ++ r) else pure (l ++ " " ++ r)
      else if compress then pure (l ++ op ++ r)
      else pure (l ++ " " ++ op ++ " " ++ r)
  | .ParamExp e =>
      if let some d := e.DefaultValExp then
        some ("$\x7b" ++ fmt.verbS fields e.Var ++ ":-" ++ fmt.verbS fields d.Val ++ "\x7d")
      else if let some d := e.DefaultValAssignExp then
        some ("$\x7b" ++ fmt.verbS fields e.Var ++ ":=" ++ fmt.verbS fields d.Val ++ "\x7d")
      else if let some d := e.NonNullCheckExp then
        some ("$\x7b" ++ fmt.verbS fields e.Var ++ ":?" ++ fmt.verbS fields d.Val ++ "\x7d")
      else if let some d := e.NonNullExp then
        some ("$\x7b" ++ fmt.verbS fields e.Var ++ ":+" ++ fmt.verbS fields d.Val ++ "\x7d")
      else if e.PrefixExp.isSome then
        some ("$\x7b!" ++ fmt.verbS fields e.Var ++ "*\x7d")
      else if e.PrefixArrayExp.isSome then
        some ("$\x7b!" ++ fmt.verbS fields e.Var ++ "@\x7d")
      else if let some a := e.ArrayIndexExp then
        if a.Tok == MUL then some ("$\x7b!" ++ fmt.verbS fields e.Var ++ "[*]\x7d")
        else some ("$\x7b!" ++ fmt.verbS fields e.Var ++ "[@]\x7d")
      else if e.LengthExp.isSome then
        some ("$\x7b#" ++ fmt.verbS fields e.Var ++ "\x7d")
      else if let some d := e.DelPrefix then
        if d.Longest then
          some ("$\x7b" ++ fmt.verbS fields e.Var ++ "##" ++ fmt.verbS fields d.Val ++ "\x7d")
        else
          some ("$\x7b" ++ fmt.verbS fields e.Var ++ "#" ++ fmt.verbS fields d.Val ++ "\x7d")
      else if let some d := e.DelSuffix then
        if d.Longest then do
          let dp ← e.DelPrefix
          pure ("$\x7b" ++ fmt.verbS fields e.Var ++ "%%" ++ fmt.verbS fields dp.Val ++ "\x7d")
        else do
          let dp ← e.DelPrefix
          pure ("$\x7b" ++ fmt.verbS fields e.Var ++ "%" ++ fmt.verbS fields dp.Val ++ "\x7d")
      else if let some s := e.SubstringExp then
        if s.Offset != s.Length then
          some ("$\x7b" ++ fmt.verbS fields e.Var ++ ":" ++ fmt.verbD s.Offset ++ ":"
            ++ fmt.verbD s.Length ++ "\x7d")
        else
          some ("$\x7b" ++ fmt.verbS fields e.Var ++ ":" ++ fmt.verbD s.Offset ++ "\x7d")
      else if let some r := e.ReplaceExp then
        some ("$\x7b" ++ fmt.verbS fields e.Var ++ "/" ++ r.Old ++ "/" ++ r.New ++ "\x7d")
      else if let some r := e.ReplacePrefixExp then
        some ("$\x7b" ++ fmt.verbS fields e.Var ++ "/#" ++ r.Old ++ "/" ++ r.New ++ "\x7d")
      else if let some r := e.ReplaceSuffixExp then
        some ("$\x7b" ++ fmt.verbS fields e.Var ++ "/%" ++ r.Old ++ "/" ++ r.New ++ "\x7d")
      else if let some c := e.CaseConversionExp then
        if c.FirstChar && c.ToUpper then
          some ("$\x7b" ++ fmt.verbS fields e.Var ++ "^\x7d")
        else if !c.FirstChar && c.ToUpper then
          some ("$\x7b" ++ fmt.verbS fields e.Var ++ "^^\x7d")
        else if c.FirstChar && !c.ToUpper then
          some ("$\x7b" ++ fmt.verbS fields e.Var ++ ",\x7d")
        else
          some ("$\x7b" ++ fmt.verbS fields e.Var ++ ",,\x7d")
      else if let some o := e.OperatorExp then
        some ("$\x7b" ++ fmt.verbS fields e.Var ++ "@" ++ o.Op ++ "\x7d")
      else some ""
  | .nil => some ""
/-- The loop of `ExprListStr`: `res = append(res, ExprStr(e))` for each `e`. -/
def ExprListStr.loop (fields : Expr → String) : List Expr → Option (List String)
  | [] => some []
  | e :: es => do
      let s ← ExprStr fields e
      let res ← ExprListStr.loop fields es
      pure (s :: res)
end

/-- `func ExprListStr(list []Expr) string`. -/
def ExprListStr (fields : Expr → String) (list : List Expr) : Option String :=
  (ExprListStr.loop fields list).map (fun res => strings.Join res " ")

/-- A `ParamExp` over `var` with every payload pointer nil. -/
def ParamExp.plain (dollar lbrace : Pos) (var : Expr) (rbrace : Pos) : ParamExp Expr :=
  { Dollar := dollar, Lbrace := lbrace, Var := var,
    DefaultValExp := none, DefaultValAssignExp := none, NonNullCheckExp := none,
    NonNullExp := none, PrefixExp := none, PrefixArrayExp := none, ArrayIndexExp := none,
    LengthExp := none, DelPrefix := none, DelSuffix := none, SubstringExp := none,
    ReplaceExp := none, ReplacePrefixExp := none, ReplaceSuffixExp := none,
    CaseConversionExp := none, OperatorExp := none, Rbrace := rbrace }

end ast

namespace ast
open token

/-! ## Statement rendering (`ast/print.go`) -/

/-- `type printer struct`; `output` is the text written so far to the writer. -/
structure printer where
  output : String
  ident : String
  temp : String

/-- `func (p *printer) println(toks ...any) *printer`, for string operands. -/
def printer.println (p : printer) (toks : List String) : printer :=
  let toks := if p.ident.length != 0 then p.ident :: toks else toks
  { p with output := p.output ++ fmt.Sprintln toks }

/-- `func (p *printer) println_c(toks ...string) *printer`: the operands are
concatenated without separator. -/
def printer.println_c (p : printer) (toks : List String) : printer :=
  let toks := if p.ident.length != 0 then p.ident :: toks else toks
  let result := toks.foldl (fun result tok => result ++ tok) ""
  { p with output := p.output ++ fmt.Sprintln [result] }

/-- The state a rendering runs in: the printer, and the text written to standard
error (where Go's builtin `println` writes). -/
structure Proc where
  p : printer
  stderr : String

/-- The assignment `p.ident = i`. -/
def Proc.setIdent (s : Proc) (i : String) : Proc :=
  { s with p := { s.p with ident := i } }

/-- The call `p.println(toks...)`. -/
def Proc.println (s : Proc) (toks : List String) : Proc :=
  { s with p := s.p.println toks }

/-- The call `p.println_c(toks...)`. -/
def Proc.println_c (s : Proc) (toks : List String) : Proc :=
  { s with p := s.p.println_c toks }

/-- Go's builtin `println(tok)`: the operand and a newline, to standard error. -/
def Proc.builtinPrintln (s : Proc) (tok : String) : Proc :=
  { s with stderr := s.stderr ++ tok ++ "\n" }

mutual
/-- The statement cases of `func (p *printer) Visit(node Node) Visitor`. The
method returns the nil visitor in every case, so the result is the state after
the call; `none` is a panic on a nil pointer. -/
def printer.VisitStmt (fields : Expr → String) (s : Proc) : Stmt → Option Proc
  | .AssignStmt islocal lhs _ rhs => do
      let l ← ExprStr fields lhs
      let r ← ExprStr fields rhs
      if islocal then pure (s.println_c [LOCAL, SPACE, l, ASSIGN, r])
      else pure (s.println_c [l, ASSIGN, r])
  | .ReturnStmt _ x => do
      let v ← ExprStr fields x
      pure (s.println [RETURN, v])
  | .BreakStmt _ => some (s.println [BREAK])
  | .ContinueStmt _ => some (s.println [CONTINUE])
  | .WhileStmt _ cond body _ => do
      let c ← ExprStr fields cond
      let s := s.println [WHILE, c]
      let temp := s.p.ident
      let s := s.setIdent (s.p.ident ++ "  ")
      let some b := body | none
      let s ← printer.block fields s b.List
      let s := s.setIdent temp
      pure (s.println [END])
  | .ForeachStmt _ elem _ group body _ => do
      let e ← ExprStr fields elem
      let g ← ExprListStr fields group
      let s := s.println [FOR, e, IN, g]
      let temp := s.p.ident
      let s := s.setIdent (s.p.ident ++ "  ")
      let some b := body | none
      let s ← printer.block fields s b.List
      let s := s.setIdent temp
      pure (s.println [END])
  | .IfStmt (.mk _ cond body elifs els _) => do
      let c ← ExprStr fields cond
      let s := s.println [IF, c]
      let temp := s.p.ident
      let s := s.setIdent (s.p.ident ++ "  ")
      let some b := body | none
      let s ← printer.block fields s b.List
      let s := s.setIdent temp
      let s ← elifs.foldlM (fun (s : Proc) (elif : Option IfStmt) => do
        let .mk _ econd _ _ _ _ ← elif
        let ec ← ExprStr fields econd
        let s := s.println [ELSE, IF, ec]
        let temp := s.p.ident
        let s := s.setIdent (s.p.ident ++ "  ")
        let s ← printer.block fields s b.List
        pure (s.setIdent temp)) s
      let s ←
        if els.isSome then do
          let s := s.println [ELSE]
          let temp := s.p.ident
          let s := s.setIdent (s.p.ident ++ "  ")
          let s ← printer.block fields s b.List
          pure (s.setIdent temp)
        else pure s
      pure (s.println [END])
  | .SwitchStmt _ _ var _ cases els _ => do
      let v ← ExprStr fields var
      let s := s.println [SWITCH, LPAREN ++ v ++ RPAREN]
      let s ← printer.VisitStmt.cases fields s cases
      let s ←
        match els with
        | some e => do
          let s := s.println [CASE, "'*'"]
          let temp := s.p.ident
          let s := s.setIdent (s.p.ident ++ "  ")
          let s ← printer.block fields s e.List
          pure (s.setIdent temp)
        | none => pure s
      pure (s.println [END])
  | .ExprStmt x => do
      let v ← ExprStr fields x
      pure (s.println [v])
  | .BlockStmt _ => some s
  | .nil => some s
/-- The loop `for _, c := range n.Cases` of the `SwitchStmt` case. -/
def printer.VisitStmt.cases (fields : Expr → String) (s : Proc) :
    List (Option (CaseClause Stmt)) → Option Proc
  | [] => some s
  | c :: cs => do
      let some ⟨_, conds, body⟩ := c | none
      let cs' ← ExprListStr.loop fields conds
      let s := s.println [CASE, strings.Join cs' " "]
      let temp := s.p.ident
      let s := s.setIdent (s.p.ident ++ "  ")
      let some b := body | none
      let s ← printer.block fields s b.List
      let s := s.setIdent temp
      printer.VisitStmt.cases fields s cs
/-- `func (p *printer) block(stmts []Stmt) *printer`. Each `Walk(p, s)` calls
`p.Visit(s)`, receives the nil visitor and returns. -/
def printer.block (fields : Expr → String) (s : Proc) : List Stmt → Option Proc
  | [] => some s
  | st :: rest => do
      let s ← printer.VisitStmt fields s st
      printer.block fields s rest
end

/-- The `FuncDecl` case of `printer.Visit`; the closing `println(token.END)` is
Go's builtin, not the method `p.println`. -/
def printer.VisitDecl (fields : Expr → String) (s : Proc) : Decl → Option Proc
  | .FuncDecl n => do
      let name ← n.Name
      let recv ← ExprListStr fields n.Recv
      let s := s.println [FUNCTION, name.Name, recv]
      let temp := s.p.ident
      let s := s.setIdent (s.p.ident ++ "  ")
      let b ← n.Body
      let s ← printer.block fields s b.List
      let s := s.setIdent temp
      pure (s.builtinPrintln END)
  | .nil => some s

/-- `func (p *printer) Visit(node Node) Visitor`, as the state after the call. -/
def printer.Visit (fields : Expr → String) (s : Proc) : Node → Option Proc
  | .File n => do
      let s ← n.Decls.foldlM (fun s d => printer.VisitDecl fields s d) s
      n.Stmts.foldlM (fun s st => printer.VisitStmt fields s st) s
  | .Decl d => printer.VisitDecl fields s d
  | .Stmt st => printer.VisitStmt fields s st
  | _ => some s

/-- The state `String` starts in: an empty buffer and the empty indentation. -/
def Proc.init : Proc := { p := { output := "", ident := "", temp := "" }, stderr := "" }

/-- `func String(node Node) string`: `Walk` calls `Visit` on the root, receives
the nil visitor and returns; the result is the text in the buffer. -/
def String' (fields : Expr → String) (node : Node) : Option String :=
  (printer.Visit fields Proc.init node).map (fun s => s.p.output)

end ast

/-! ## Payload kinds -/

namespace ast
open token

/-- The sixteen kinds of payload of a `ParamExp`, in the order of the struct. -/
inductive PayloadKind where
  | DefaultValExp | DefaultValAssignExp | NonNullCheckExp | NonNullExp | PrefixExp
  | PrefixArrayExp | ArrayIndexExp | LengthExp | DelPrefix | DelSuffix | SubstringExp
  | ReplaceExp | ReplacePrefixExp | ReplaceSuffixExp | CaseConversionExp | OperatorExp
  deriving DecidableEq

/-- A payload of one of the sixteen kinds. -/
inductive Payload where
  | DefaultValExp (x : DefaultValExp Expr)
  | DefaultValAssignExp (x : DefaultValAssignExp Expr)
  | NonNullCheckExp (x : NonNullCheckExp Expr)
  | NonNullExp (x : NonNullExp Expr)
  | PrefixExp (x : PrefixExp)
  | PrefixArrayExp (x : PrefixArrayExp)
  | ArrayIndexExp (x : ArrayIndexExp)
  | LengthExp (x : LengthExp)
  | DelPrefix (x : DelPrefix Expr)
  | DelSuffix (x : DelSuffix Expr)
  | SubstringExp (x : SubstringExp)
  | ReplaceExp (x : ReplaceExp)
  | ReplacePrefixExp (x : ReplacePrefixExp)
  | ReplaceSuffixExp (x : ReplaceSuffixExp)
  | CaseConversionExp (x : CaseConversionExp)
  | OperatorExp (x : OperatorExp)

/-- The kind of a payload. -/
def Payload.kind : Payload → PayloadKind
  | .DefaultValExp _ => .DefaultValExp
  | .DefaultValAssignExp _ => .DefaultValAssignExp
  | .NonNullCheckExp _ => .NonNullCheckExp
  | .NonNullExp _ => .NonNullExp
  | .PrefixExp _ => .PrefixExp
  | .PrefixArrayExp _ => .PrefixArrayExp
  | .ArrayIndexExp _ => .ArrayIndexExp
  | .LengthExp _ => .LengthExp
  | .DelPrefix _ => .DelPrefix
  | .DelSuffix _ => .DelSuffix
  | .SubstringExp _ => .SubstringExp
  | .ReplaceExp _ => .ReplaceExp
  | .ReplacePrefixExp _ => .ReplacePrefixExp
  | .ReplaceSuffixExp _ => .ReplaceSuffixExp
  | .CaseConversionExp _ => .CaseConversionExp
  | .OperatorExp _ => .OperatorExp

/-- The `ParamExp` over `var` that carries exactly the payload `pl`. -/
def ParamExp.single (dollar lbrace : Pos) (var : Expr) (rbrace : Pos) : Payload → ParamExp Expr
  | .DefaultValExp x => { ParamExp.plain dollar lbrace var rbrace with DefaultValExp := some x }
  | .DefaultValAssignExp x =>
      { ParamExp.plain dollar lbrace var rbrace with DefaultValAssignExp := some x }
  | .NonNullCheckExp x => { ParamExp.plain dollar lbrace var rbrace with NonNullCheckExp := some x }
  | .NonNullExp x => { ParamExp.plain dollar lbrace var rbrace with NonNullExp := some x }
  | .PrefixExp x => { ParamExp.plain dollar lbrace var rbrace with PrefixExp := some x }
  | .PrefixArrayExp x => { ParamExp.plain dollar lbrace var rbrace with PrefixArrayExp := some x }
  | .ArrayIndexExp x => { ParamExp.plain dollar lbrace var rbrace with ArrayIndexExp := some x }
  | .LengthExp x => { ParamExp.plain dollar lbrace var rbrace with LengthExp := some x }
  | .DelPrefix x => { ParamExp.plain dollar lbrace var rbrace with DelPrefix := some x }
  | .DelSuffix x => { ParamExp.plain dollar lbrace var rbrace with DelSuffix := some x }
  | .SubstringExp x => { ParamExp.plain dollar lbrace var rbrace with SubstringExp := some x }
  | .ReplaceExp x => { ParamExp.plain dollar lbrace var rbrace with ReplaceExp := some x }
  | .ReplacePrefixExp x =>
      { ParamExp.plain dollar lbrace var rbrace with ReplacePrefixExp := some x }
  | .ReplaceSuffixExp x =>
      { ParamExp.plain dollar lbrace var rbrace with ReplaceSuffixExp := some x }
  | .CaseConversionExp x =>
      { ParamExp.plain dollar lbrace var rbrace with CaseConversionExp := some x }
  | .OperatorExp x => { ParamExp.plain dollar lbrace var rbrace with OperatorExp := some x }

/-- The pairs of payloads of different kinds whose forms do not tell them apart
for every text of the variable and of the value: a replace payload whose `Old`
begins with `#` (with `%`) reads like a replace-prefix (replace-suffix) payload,
the `:-` of a default value reads like the colon before a negative substring
offset, and the `#` before the variable of a length reads like the `#` of a
shortest prefix-delete after it. -/
def Payload.clash : Payload → Payload → Bool
  | .ReplaceExp r, .ReplacePrefixExp _ => r.Old.data.head? == some '#'
  | .ReplaceExp r, .ReplaceSuffixExp _ => r.Old.data.head? == some '%'
  | .DefaultValExp _, .SubstringExp s => decide (s.Offset < 0)
  | .LengthExp _, .DelPrefix d => !d.Longest
  | _, _ => false

end ast

/-! ## Sample trees -/

namespace ast
open token

/-- An identifier at no position. -/
def ident (name : String) : Expr := .Ident { NamePos := NoPos, Name := name }

/-- A block without delimiters. -/
def bareBlock (list : List Stmt) : BlockStmt Stmt :=
  { Tok := NONE, Opening := NoPos, List := list, Closing := NoPos }

/-- The statement `if c1; a; else if c2; b; else; c; end`: one else-if clause and
an else block, the three bodies being the distinct commands `a`, `b` and `c`. -/
def sampleIf : Stmt :=
  .IfStmt (.mk NoPos (ident "c1") (some (bareBlock [.ExprStmt (ident "a")]))
    [some (.mk NoPos (ident "c2") (some (bareBlock [.ExprStmt (ident "b")])) [] none NoPos)]
    (some (bareBlock [.ExprStmt (ident "c")])) NoPos)

/-- The loop `while c; a=b; echo; end`: an assignment and an expression
statement in the same body. -/
def sampleWhile : Stmt :=
  .WhileStmt NoPos (ident "c")
    (some (bareBlock [.AssignStmt false (ident "a") NoPos (ident "b"), .ExprStmt (ident "echo")]))
    NoPos

/-- The declaration `function f` with an empty body. -/
def sampleFunc : Decl :=
  .FuncDecl { Function := NoPos, Name := some { NamePos := NoPos, Name := "f" }, Recv := [],
              Body := some (bareBlock []), EndPos := NoPos }

end ast

/-! ## Traversal (`ast/walk.go`) -/

namespace ast
open token

/-- `func Walk(v Visitor, node Node)`. A visitor value is an element of `V`, the
state its `Visit` method reads and writes is an element of `W`, and
`Visit v node w` is the returned visitor (`none` is the nil visitor) with the
state after the call. The first argument of `Walk` bounds the depth of the
recursion: the result is `none` when the calls nest deeper than that, and
`some w` is the state when `Walk` returns. -/
def Walk {V W : Type} (Visit : V → Node → W → Option V × W) : Nat → V → Node → W → Option W
  | 0, _, _, _ => none
  | fuel + 1, v, node, w =>
    match Visit v node w with
    | (none, w) => some w
    | (some v, w) =>
      match node with
      | .Comment _ => some w
      | .Expr (.Ident _) => some w
      | .Stmt (.ReturnStmt _ _) => Walk Visit fuel v node w
      | .Stmt (.BreakStmt _) => Walk Visit fuel v node w
      | .Stmt (.ContinueStmt _) => Walk Visit fuel v node w
      | .Stmt (.WhileStmt _ _ _ _) => Walk Visit fuel v node w
      | .Stmt (.ForeachStmt _ _ _ _ _ _) => Walk Visit fuel v node w
      | .Stmt (.IfStmt _) => Walk Visit fuel v node w
      | .Stmt (.SwitchStmt _ _ _ _ _ _ _) => Walk Visit fuel v node w
      | .Stmt (.ExprStmt _) => Walk Visit fuel v node w
      | _ => some w

/-- The nodes on which `Walk` calls itself again: the eight statement kinds of
its type switch that have a `Walk(v, n)` body. -/
def Node.walkedAgain : Node → Bool
  | .Stmt (.ReturnStmt _ _) => true
  | .Stmt (.BreakStmt _) => true
  | .Stmt (.ContinueStmt _) => true
  | .Stmt (.WhileStmt _ _ _ _) => true
  | .Stmt (.ForeachStmt _ _ _ _ _ _) => true
  | .Stmt (.IfStmt _) => true
  | .Stmt (.SwitchStmt _ _ _ _ _ _ _) => true
  | .Stmt (.ExprStmt _) => true
  | _ => false

/-- A visitor together with the log of the nodes its `Visit` was called on. -/
def traced {V W : Type} (Visit : V → Node → W → Option V × W) :
    V → Node → W × List Node → Option V × (W × List Node) :=
  fun v node s => ((Visit v node s.1).1, ((Visit v node s.1).2, s.2 ++ [node]))

/-- The visitor without state that returns itself on every node. -/
def keepGoing : Unit → Node → Unit → Option Unit × Unit :=
  fun _ _ _ => (some (), ())

/-- The printer as a visitor: `Visit` returns the nil visitor; the state is the
state of the printer, or `none` after a panic. -/
def printer.asVisitor (fields : Expr → String) : Unit → Node → Option Proc → Option Unit × Option Proc :=
  fun _ node s => (none, s.bind (fun s => printer.Visit fields s node))

end ast

/-! ## Composition of printer states -/

namespace ast
open token

/-- The state reached from `s` when a run that starts in `r` with an empty buffer
writes on: the texts of `r` are appended to those of `s`, the indentation is that
of `r`. -/
def Proc.after (s r : Proc) : Proc :=
  { p := { output := s.p.output ++ r.p.output, ident := r.p.ident, temp := s.p.temp },
    stderr := s.stderr ++ r.stderr }

/-- One round of the loop `for _, elif := range n.Elif` in the `IfStmt` case of
`printer.Visit`, `body` being `n.Body.List`. -/
def printer.elifStep (fields : Expr → String) (body : List Stmt) (s : Proc)
    (elif : Option IfStmt) : Option Proc := do
  let .mk _ econd _ _ _ _ ← elif
  let ec ← ExprStr fields econd
  let s := s.println [ELSE, IF, ec]
  let temp := s.p.ident
  let s := s.setIdent (s.p.ident ++ "  ")
  let s ← printer.block fields s body
  pure (s.setIdent temp)

end ast

/-! ## Sample visitors -/

namespace ast
open token

/-- The visitor that counts its calls in the state and returns itself until the
call number `k`, on which it returns the nil visitor. -/
def stopAt (k : Nat) : Unit → Node → Nat → Option Unit × Nat :=
  fun _ _ n => (if n + 1 < k then some () else none, n + 1)

/-- The visitor without state that returns the nil visitor on every node. -/
def stopNow : Unit → Node → Unit → Option Unit × Unit :=
  fun _ _ _ => (none, ())

end ast

/-! ## Positions (`ast/ast.go`) -/

namespace ast
open token

/-- `func (c *Comment) Pos()`. -/
def Comment.Pos (c : Comment) : token.Pos := c.Hash

/-- `func (c *Comment) End()`: `token.Pos(int(c.Hash) + len(c.Text))`; `len` is
the length in bytes. -/
def Comment.End (c : Comment) : token.Pos :=
  go.wrapInt (c.Hash + (c.Text.utf8ByteSize : Int))

/-- `func (g *CommentGroup) Pos()`: `g.List[0].Pos()`; `none` is the panic on an
empty list or a nil element. -/
def CommentGroup.Pos (g : CommentGroup) : Option token.Pos :=
  match g.List with
  | [] => none
  | c :: _ => c.map Comment.Pos

/-- `func (g *CommentGroup) End()`: `g.List[len(g.List)-1].End()`. -/
def CommentGroup.End (g : CommentGroup) : Option token.Pos :=
  match g.List.getLast? with
  | none => none
  | some c => c.map Comment.End

/-- The methods `Pos()` of the expression nodes; `none` is the panic of a
method call on the nil interface or through a nil pointer. -/
def Expr.Pos : Expr → Option token.Pos
  | .nil => none
  | .BinaryExpr _ x _ _ _ => Expr.Pos x
  | .CallExpr f _ => f.map (fun i => i.NamePos)
  | .Ident x => some x.NamePos
  | .BasicLit _ _ p => some p
  | .BasicTestExpr l _ _ => some l
  | .ExtendedTestExpr l _ _ => some l
  | .ArithEvalExpr l _ _ => some l
  | .CmdSubst d _ _ _ _ => some d
  | .ProcSubst _ p _ _ _ => some p
  | .ArithExp d _ _ _ => some d
  | .ParamExp x => some x.Dollar

mutual
/-- The methods `End()` of the expression nodes. -/
def Expr.End : Expr → Option token.Pos
  | .nil => none
  | .BinaryExpr _ _ _ _ y => Expr.End y
  | .CallExpr _ recv => Expr.End.ofLast recv
  | .Ident x => some (go.wrapInt (x.NamePos + (x.Name.utf8ByteSize : Int)))
  | .BasicLit _ v p => some (go.wrapInt (p + (v.utf8ByteSize : Int)))
  | .BasicTestExpr _ _ r => some r
  | .ExtendedTestExpr _ _ r => some r
  | .ArithEvalExpr _ _ r => some r
  | .CmdSubst _ _ _ _ c => some c
  | .ProcSubst _ _ _ _ r => some r
  | .ArithExp _ _ _ r => some r
  | .ParamExp x => some x.Rbrace
/-- The body of `CallExpr.End` on the list `x.Recv`: `End()` of the last element
when there is one, `NoPos` otherwise. -/
def Expr.End.ofLast : List Expr → Option token.Pos
  | [] => some NoPos
  | [e] => Expr.End e
  | _ :: e :: es => Expr.End.ofLast (e :: es)
end

/-- The methods `Pos()` of the statement nodes. -/
def Stmt.Pos : Stmt → Option token.Pos
  | .nil => none
  | .AssignStmt _ lhs _ _ => lhs.Pos
  | .BlockStmt ⟨_, opening, list, _⟩ =>
      if opening.IsValid then some opening
      else match list with
        | first :: _ => Stmt.Pos first
        | [] => some NoPos
  | .ExprStmt x => x.Pos
  | .ReturnStmt r _ => some r
  | .BreakStmt b => some b
  | .ContinueStmt c => some c
  | .WhileStmt w _ _ _ => some w
  | .ForeachStmt f _ _ _ _ _ => some f
  | .IfStmt (.mk i _ _ _ _ _) => some i
  | .SwitchStmt s _ _ _ _ _ _ => some s

/-- The methods `End()` of the statement nodes; that of `BlockStmt` without a
valid `Closing` returns `Pos()` of the last statement. -/
def Stmt.End : Stmt → Option token.Pos
  | .nil => none
  | .AssignStmt _ _ _ rhs => rhs.End
  | .BlockStmt b =>
      if b.Closing.IsValid then some b.Closing
      else match b.List.getLast? with
        | some last => Stmt.Pos last
        | none => some NoPos
  | .ExprStmt x => x.End
  | .ReturnStmt _ x => x.End
  | .BreakStmt b => some b
  | .ContinueStmt c => some c
  | .WhileStmt _ _ _ e => some e
  | .ForeachStmt _ _ _ _ _ e => some e
  | .IfStmt (.mk _ _ _ _ _ e) => some e
  | .SwitchStmt _ _ _ _ _ _ e => some e

/-- `func (d *FuncDecl) Pos()`. -/
def Decl.Pos : Decl → Option token.Pos
  | .nil => none
  | .FuncDecl d => some d.Function

/-- `func (d *FuncDecl) End()`: `d.Body.Closing`. -/
def Decl.End : Decl → Option token.Pos
  | .nil => none
  | .FuncDecl d => d.Body.map (fun b => b.Closing)

/-- The method `Pos()` of a node. -/
def Node.Pos : Node → Option token.Pos
  | .nil => none
  | .File _ => some NoPos
  | .Decl d => d.Pos
  | .Stmt s => s.Pos
  | .Expr e => e.Pos
  | .Comment c => some c.Pos
  | .CommentGroup g => g.Pos

/-- The method `End()` of a node. -/
def Node.End : Node → Option token.Pos
  | .nil => none
  | .File _ => some NoPos
  | .Decl d => d.End
  | .Stmt s => s.End
  | .Expr e => e.End
  | .Comment c => some c.End
  | .CommentGroup g => g.End

end ast

/-! ## Stored positions in source order -/

namespace ast
open token

/-- The two ends of an identifier. -/
def Ident.positions (x : Ident) : List token.Pos :=
  [x.NamePos, go.wrapInt (x.NamePos + (x.Name.utf8ByteSize : Int))]

mutual
/-- The positions stored in an expression tree, in the order of the source
text; an identifier or literal contributes its position and its `End()`, the
position plus the length of its text. Of a parameter expansion only `Dollar`, `Lbrace` and
`Rbrace` are listed: no `Pos()` or `End()` reads the positions stored in its
variable and payloads. -/
def Expr.positions : Expr → List token.Pos
  | .nil => []
  | .BinaryExpr _ x opPos _ y => Expr.positions x ++ opPos :: Expr.positions y
  | .CallExpr f recv =>
      (match f with
        | none => []
        | some i => i.positions) ++ Expr.positions.list recv
  | .Ident x => x.positions
  | .BasicLit _ v p => [p, go.wrapInt (p + (v.utf8ByteSize : Int))]
  | .BasicTestExpr l x r => l :: Expr.positions x ++ [r]
  | .ExtendedTestExpr l x r => l :: Expr.positions x ++ [r]
  | .ArithEvalExpr l x r => l :: Expr.positions x ++ [r]
  | .CmdSubst d _ o x c => d :: o :: Expr.positions x ++ [c]
  | .ProcSubst _ tp lp x rp => tp :: lp :: Expr.positions x ++ [rp]
  | .ArithExp d lp x rp => d :: lp :: Expr.positions x ++ [rp]
  | .ParamExp x => x.Dollar :: x.Lbrace :: [x.Rbrace]
/-- The positions stored in a list of expressions. -/
def Expr.positions.list : List Expr → List token.Pos
  | [] => []
  | e :: es => Expr.positions e ++ Expr.positions.list es
end

mutual
/-- The positions stored in a statement tree, in the order of the source text. -/
def Stmt.positions : Stmt → List token.Pos
  | .nil => []
  | .AssignStmt _ lhs a rhs => lhs.positions ++ a :: rhs.positions
  | .BlockStmt ⟨_, o, l, c⟩ => o :: Stmt.positions.list l ++ [c]
  | .ExprStmt x => x.positions
  | .ReturnStmt r x => r :: x.positions
  | .BreakStmt b => [b]
  | .ContinueStmt c => [c]
  | .WhileStmt w cond body e => w :: cond.positions ++ Stmt.positions.block body ++ [e]
  | .ForeachStmt f elem i group body e =>
      f :: elem.positions ++ i :: Expr.positions.list group ++ Stmt.positions.block body ++ [e]
  | .IfStmt s => IfStmt.positions s
  | .SwitchStmt s lp var rp cases els e =>
      s :: lp :: var.positions ++ rp :: CaseClause.positions.list cases
        ++ Stmt.positions.block els ++ [e]
/-- The positions stored in an `IfStmt`. -/
def IfStmt.positions : IfStmt → List token.Pos
  | .mk i cond body elifs els e =>
      i :: cond.positions ++ Stmt.positions.block body ++ IfStmt.positions.list elifs
        ++ Stmt.positions.block els ++ [e]
/-- The positions stored in a block behind a pointer. -/
def Stmt.positions.block : Option (BlockStmt Stmt) → List token.Pos
  | none => []
  | some ⟨_, o, l, c⟩ => o :: Stmt.positions.list l ++ [c]
/-- The positions stored in a list of statements. -/
def Stmt.positions.list : List Stmt → List token.Pos
  | [] => []
  | s :: ss => Stmt.positions s ++ Stmt.positions.list ss
/-- The positions stored in a list of else-if clauses. -/
def IfStmt.positions.list : List (Option IfStmt) → List token.Pos
  | [] => []
  | none :: ss => IfStmt.positions.list ss
  | some s :: ss => IfStmt.positions s ++ IfStmt.positions.list ss
/-- The positions stored in a list of case clauses. -/
def CaseClause.positions.list : List (Option (CaseClause Stmt)) → List token.Pos
  | [] => []
  | none :: cs => CaseClause.positions.list cs
  | some ⟨c, conds, body⟩ :: cs =>
      c :: Expr.positions.list conds ++ Stmt.positions.block body
        ++ CaseClause.positions.list cs
end

/-- The two ends of a comment. -/
def Comment.positions (c : Comment) : List token.Pos := [c.Pos, c.End]

/-- The positions stored in a list of comments. -/
def Comment.positions.list : List (Option Comment) → List token.Pos
  | [] => []
  | none :: cs => Comment.positions.list cs
  | some c :: cs => c.positions ++ Comment.positions.list cs

/-- The positions stored in a comment group. -/
def CommentGroup.positions (g : CommentGroup) := Comment.positions.list g.List

/-- The positions stored in a declaration. -/
def Decl.positions : Decl → List token.Pos
  | .nil => []
  | .FuncDecl d =>
      d.Function :: (match d.Name with | none => [] | some i => i.positions)
        ++ Expr.positions.list d.Recv ++ Stmt.positions.block d.Body ++ [d.EndPos]

/-- The positions stored in the tree under a node, in the order of the source
text; in a file the declarations come before the statements. -/
def Node.positions : Node → List token.Pos
  | .nil => []
  | .File f =>
      (match f.Doc with | none => [] | some g => g.positions)
        ++ f.Decls.flatMap Decl.positions ++ Stmt.positions.list f.Stmts
  | .Decl d => d.positions
  | .Stmt s => s.positions
  | .Expr e => e.positions
  | .Comment c => c.positions
  | .CommentGroup g => g.positions

/-- The stored positions of a tree are in source order: those that are valid do
not decrease along the source text. -/
def Node.inSourceOrder (n : Node) : Prop :=
  (n.positions.filter Pos.IsValid).Sorted (fun a b => a ≤ b)

instance (n : Node) : Decidable n.inSourceOrder := by
  unfold Node.inSourceOrder; infer_instance

/-- The list `l`, without its invalid positions, begins with `p`. -/
def firstValid (l : List token.Pos) (p : token.Pos) : Prop :=
  ∃ rest, l.filter Pos.IsValid = p :: rest

end ast

/-! ## Theorems -/

namespace ast
open token

/-! ### Lemmas on the texts `fmt` writes -/

theorem digitChar_isDigit : ∀ m, m < 10 → (Nat.digitChar m).isDigit = true := by decide

theorem toDigitsCore_digits (fuel : Nat) : ∀ (n : Nat) (ds : List Char),
    (∀ c ∈ ds, c.isDigit = true) → ∀ c ∈ Nat.toDigitsCore 10 fuel n ds, c.isDigit = true := by
  induction fuel with
  | zero => intro n ds h; simpa [Nat.toDigitsCore] using h
  | succ f ih =>
    intro n ds h
    have hd : (Nat.digitChar (n % 10)).isDigit = true :=
      digitChar_isDigit _ (Nat.mod_lt _ (by decide))
    have h' : ∀ c ∈ Nat.digitChar (n % 10) :: ds, c.isDigit = true := by
      intro c hc
      rcases List.mem_cons.1 hc with rfl | hc
      · exact hd
      · exact h c hc
    simp only [Nat.toDigitsCore]
    split
    · exact h'
    · exact ih _ _ h'

theorem toDigitsCore_ne_nil (fuel : Nat) : ∀ (n : Nat) (ds : List Char),
    (fuel ≠ 0 ∨ ds ≠ []) → Nat.toDigitsCore 10 fuel n ds ≠ [] := by
  induction fuel with
  | zero => intro n ds h; simpa [Nat.toDigitsCore] using h
  | succ f ih =>
    intro n ds _
    simp only [Nat.toDigitsCore]
    split
    · simp
    · exact ih _ _ (Or.inr (by simp))

theorem toDigits_head (n : Nat) :
    ∃ d rest, Nat.toDigits 10 n = d :: rest ∧ d.isDigit = true := by
  have h1 := toDigitsCore_ne_nil (n + 1) n [] (Or.inl (by simp))
  have h2 := toDigitsCore_digits (n + 1) n [] (by simp)
  unfold Nat.toDigits
  cases h : Nat.toDigitsCore 10 (n + 1) n [] with
  | nil => exact absurd h h1
  | cons d rest => exact ⟨d, rest, rfl, h2 d (by simp [h])⟩

theorem verbD_head (n : Int) :
    (0 ≤ n ∧ ∃ d rest, (fmt.verbD n).data = d :: rest ∧ d.isDigit = true)
    ∨ (n < 0 ∧ ∃ d rest, (fmt.verbD n).data = '-' :: d :: rest ∧ d.isDigit = true) := by
  cases n with
  | ofNat m =>
    left
    obtain ⟨d, rest, h, hd⟩ := toDigits_head m
    exact ⟨Int.ofNat_nonneg m, d, rest,
      by show (Nat.toDigits 10 m).asString.data = _; simp [List.asString, h], hd⟩
  | negSucc m =>
    right
    obtain ⟨d, rest, h, hd⟩ := toDigits_head (m + 1)
    refine ⟨Int.negSucc_lt_zero m, d, rest, ?_, hd⟩
    show ("-" ++ (Nat.toDigits 10 (m + 1)).asString).data = _
    simp [List.asString, h]

theorem cons_append_shift (p : Char) (s1 s2 : List Char) :
    ∀ V : List Char, p :: (V ++ s1) = V ++ s2 → s2 = p :: s1 := by
  intro V
  induction V with
  | nil => intro h; simpa using h.symm
  | cons c V ih =>
    intro h
    simp only [List.cons_append, List.cons.injEq] at h
    obtain ⟨rfl, h⟩ := h
    exact ih h

theorem isDigit_ne {d : Char} (h : d.isDigit = true) :
    (d ≠ '&' ∧ d ≠ '%' ∧ d ≠ '-' ∧ d ≠ '=' ∧ d ≠ '?' ∧ d ≠ '+')
    ∧ ('&' ≠ d ∧ '%' ≠ d ∧ '-' ≠ d ∧ '=' ≠ d ∧ '?' ≠ d ∧ '+' ≠ d) := by
  refine ⟨⟨?_, ?_, ?_, ?_, ?_, ?_⟩, ⟨?_, ?_, ?_, ?_, ?_, ?_⟩⟩ <;>
    (rintro rfl; revert h; decide)

theorem ExprStr_single (fields : Expr → String) (dollar lbrace rbrace : Pos) (var : Expr)
    (a : Payload) :
    ExprStr fields (.ParamExp (ParamExp.single dollar lbrace var rbrace a)) =
      match a with
      | .DefaultValExp x =>
          some ("$\x7b" ++ fmt.verbS fields var ++ ":-" ++ fmt.verbS fields x.Val ++ "\x7d")
      | .DefaultValAssignExp x =>
          some ("$\x7b" ++ fmt.verbS fields var ++ ":=" ++ fmt.verbS fields x.Val ++ "\x7d")
      | .NonNullCheckExp x =>
          some ("$\x7b" ++ fmt.verbS fields var ++ ":?" ++ fmt.verbS fields x.Val ++ "\x7d")
      | .NonNullExp x =>
          some ("$\x7b" ++ fmt.verbS fields var ++ ":+" ++ fmt.verbS fields x.Val ++ "\x7d")
      | .PrefixExp _ => some ("$\x7b!" ++ fmt.verbS fields var ++ "*\x7d")
      | .PrefixArrayExp _ => some ("$\x7b!" ++ fmt.verbS fields var ++ "@\x7d")
      | .ArrayIndexExp x =>
          some ("$\x7b!" ++ fmt.verbS fields var ++ (if x.Tok = MUL then "[*]\x7d" else "[@]\x7d"))
      | .LengthExp _ => some ("$\x7b#" ++ fmt.verbS fields var ++ "\x7d")
      | .DelPrefix x =>
          some ("$\x7b" ++ fmt.verbS fields var ++ (if x.Longest = true then "##" else "#")
            ++ fmt.verbS fields x.Val ++ "\x7d")
      | .DelSuffix _ => none
      | .SubstringExp x =>
          some ("$\x7b" ++ fmt.verbS fields var ++ ":" ++ fmt.verbD x.Offset
            ++ (if x.Offset = x.Length then "\x7d" else ":" ++ fmt.verbD x.Length ++ "\x7d"))
      | .ReplaceExp x =>
          some ("$\x7b" ++ fmt.verbS fields var ++ "/" ++ x.Old ++ "/" ++ x.New ++ "\x7d")
      | .ReplacePrefixExp x =>
          some ("$\x7b" ++ fmt.verbS fields var ++ "/#" ++ x.Old ++ "/" ++ x.New ++ "\x7d")
      | .ReplaceSuffixExp x =>
          some ("$\x7b" ++ fmt.verbS fields var ++ "/%" ++ x.Old ++ "/" ++ x.New ++ "\x7d")
      | .CaseConversionExp x =>
          some ("$\x7b" ++ fmt.verbS fields var
            ++ (if x.ToUpper = true then (if x.FirstChar = true then "^\x7d" else "^^\x7d")
                else (if x.FirstChar = true then ",\x7d" else ",,\x7d")))
      | .OperatorExp x => some ("$\x7b" ++ fmt.verbS fields var ++ "@" ++ x.Op ++ "\x7d") := by
  cases a with
  | ArrayIndexExp x => by_cases h : x.Tok = MUL <;> simp [ExprStr, ParamExp.single, ParamExp.plain, h]
  | DelPrefix x => cases h : x.Longest <;> simp [ExprStr, ParamExp.single, ParamExp.plain, h]
  | DelSuffix x => cases h : x.Longest <;> simp [ExprStr, ParamExp.single, ParamExp.plain, h]
  | SubstringExp x =>
      by_cases h : x.Offset = x.Length <;>
        simp [ExprStr, ParamExp.single, ParamExp.plain, h, String.append_assoc]
  | CaseConversionExp x =>
      cases h : x.FirstChar <;> cases h' : x.ToUpper <;>
        simp [ExprStr, ParamExp.single, ParamExp.plain, h, h']
  | _ => rfl


/-! ### The claims -/

/-- C1. On the parameter expansion over the identifier `count` with the
default-value payload whose `Val` is the word literal `x`, `ExprStr` passes the
nodes `Var` and `Val` themselves to `%s`, so the text holds their reflection
dumps and is not `${count:-x}`. -/
theorem C1_defaultVal_count_x (fields : Expr → String) :
    ExprStr fields (.ParamExp { ParamExp.plain 0 0 (.Ident ⟨0, "count"⟩) 0 with
        DefaultValExp := some ⟨0, 0, .BasicLit WORD "x" 0⟩ })
      = some "$\x7b&\x7b%!s(token.Pos=0) count\x7d:-&\x7bWORD x %!s(token.Pos=0)\x7d\x7d"
    ∧ ExprStr fields (.ParamExp { ParamExp.plain 0 0 (.Ident ⟨0, "count"⟩) 0 with
        DefaultValExp := some ⟨0, 0, .BasicLit WORD "x" 0⟩ })
      ≠ some "$\x7bcount:-x\x7d" := by
  refine ⟨rfl, ?_⟩
  rw [show ExprStr fields (.ParamExp { ParamExp.plain 0 0 (.Ident ⟨0, "count"⟩) 0 with
        DefaultValExp := some ⟨0, 0, .BasicLit WORD "x" 0⟩ })
      = some "$\x7b&\x7b%!s(token.Pos=0) count\x7d:-&\x7bWORD x %!s(token.Pos=0)\x7d\x7d" from rfl]
  decide

/-- C2. On the parameter expansion over the identifier `path` with the
prefix-delete payload whose `Val` is the word literal `/*/`, `ExprStr` writes
`##` when `Longest` is set and `#` otherwise, but around the reflection dumps of
the two nodes, so the texts are not `${path##/*/}` and `${path#/*/}`. -/
theorem C2_delPrefix_path (fields : Expr → String) :
    ExprStr fields (.ParamExp { ParamExp.plain 0 0 (.Ident ⟨0, "path"⟩) 0 with
        DelPrefix := some ⟨true, 0, .BasicLit WORD "/*/" 0⟩ })
      = some "$\x7b&\x7b%!s(token.Pos=0) path\x7d##&\x7bWORD /*/ %!s(token.Pos=0)\x7d\x7d"
    ∧ ExprStr fields (.ParamExp { ParamExp.plain 0 0 (.Ident ⟨0, "path"⟩) 0 with
        DelPrefix := some ⟨false, 0, .BasicLit WORD "/*/" 0⟩ })
      = some "$\x7b&\x7b%!s(token.Pos=0) path\x7d#&\x7bWORD /*/ %!s(token.Pos=0)\x7d\x7d" :=
  ⟨rfl, rfl⟩

/-- C3. On every parameter expansion whose only payload is a suffix-delete,
`ExprStr` reads `e.DelPrefix.Val` through the nil `DelPrefix` pointer and
panics, whatever the flag `Longest`. -/
theorem C3_delSuffix_alone_panics (fields : Expr → String) (dollar lbrace rbrace : Pos)
    (var : Expr) (d : DelSuffix Expr) :
    ExprStr fields (.ParamExp { ParamExp.plain dollar lbrace var rbrace with
        DelSuffix := some d }) = none := by
  cases h : d.Longest <;> simp [ExprStr, ParamExp.plain, h]

/-- C4. On every parameter expansion whose only payload is a replace,
`ExprStr` does not read the flag `All`: the texts for `All` set and `All` unset
are the same, the single-slash form. -/
theorem C4_replace_ignores_All (fields : Expr → String) (dollar lbrace rbrace : Pos)
    (var : Expr) (div1 div2 : Pos) (old new : String) :
    ExprStr fields (.ParamExp { ParamExp.plain dollar lbrace var rbrace with
        ReplaceExp := some ⟨true, div1, old, div2, new⟩ })
      = ExprStr fields (.ParamExp { ParamExp.plain dollar lbrace var rbrace with
        ReplaceExp := some ⟨false, div1, old, div2, new⟩ })
    ∧ ExprStr fields (.ParamExp { ParamExp.plain dollar lbrace var rbrace with
        ReplaceExp := some ⟨true, div1, old, div2, new⟩ })
      = some ("$\x7b" ++ fmt.verbS fields var ++ "/" ++ old ++ "/" ++ new ++ "\x7d") :=
  ⟨rfl, rfl⟩

/-- C5. On every parameter expansion with no payload set, `ExprStr` matches no
case and returns the empty string. -/
theorem C5_no_payload_renders_empty (fields : Expr → String) (dollar lbrace rbrace : Pos)
    (var : Expr) :
    ExprStr fields (.ParamExp (ParamExp.plain dollar lbrace var rbrace)) = some "" :=
  rfl

/-- C6 (as stated, refuted). Over the identifier `v`, the replace payload with
`Old` = `#a`, `New` = `b` and the replace-prefix payload with `Old` = `a`,
`New` = `b` are payloads of different kinds that `ExprStr` renders to the same
text. -/
theorem C6_replace_meets_replacePrefix :
    (Payload.ReplaceExp ⟨false, 0, "#a", 0, "b"⟩).kind
      ≠ (Payload.ReplacePrefixExp ⟨0, 0, "a", 0, "b"⟩).kind
    ∧ ExprStr (fun _ => "") (.ParamExp (ParamExp.single 0 0 (.Ident ⟨0, "v"⟩) 0
        (.ReplaceExp ⟨false, 0, "#a", 0, "b"⟩)))
      = some "$\x7b&\x7b%!s(token.Pos=0) v\x7d/#a/b\x7d"
    ∧ ExprStr (fun _ => "") (.ParamExp (ParamExp.single 0 0 (.Ident ⟨0, "v"⟩) 0
        (.ReplacePrefixExp ⟨0, 0, "a", 0, "b"⟩)))
      = some "$\x7b&\x7b%!s(token.Pos=0) v\x7d/#a/b\x7d" :=
  ⟨by decide, rfl, rfl⟩

set_option maxHeartbeats 4000000 in
/-- C6 (amended). Two parameter expansions over the same `Var`, each carrying
exactly one payload, the two payloads of different kinds and neither a
suffix-delete, are rendered by `ExprStr` to different texts, for all values of
the payloads' fields, unless the pair is one of these: a replace payload whose
`Old` begins with `#` and a replace-prefix payload; a replace payload whose `Old`
begins with `%` and a replace-suffix payload; a default-value payload and a
substring payload with a negative offset; a length payload and a prefix-delete
payload with `Longest` unset. -/
theorem C6_distinct_kinds_distinct_texts (fields : Expr → String)
    (dollar lbrace rbrace dollar' lbrace' rbrace' : Pos) (var : Expr) (a b : Payload)
    (hk : a.kind ≠ b.kind) (ha : a.kind ≠ .DelSuffix) (hb : b.kind ≠ .DelSuffix)
    (hab : a.clash b = false) (hba : b.clash a = false) :
    ∃ s t, ExprStr fields (.ParamExp (ParamExp.single dollar lbrace var rbrace a)) = some s
      ∧ ExprStr fields (.ParamExp (ParamExp.single dollar' lbrace' var rbrace' b)) = some t
      ∧ s ≠ t := by
  rw [ExprStr_single, ExprStr_single]
  generalize fmt.verbS fields var = V
  rcases a with x|x|x|x|x|x|x|x|x|x|x|x|x|x|x|x <;>
  rcases b with y|y|y|y|y|y|y|y|y|y|y|y|y|y|y|y <;>
  simp [Payload.kind] at hk ha hb <;>
  refine ⟨_, _, rfl, rfl, ?_⟩ <;>
  rw [Ne, String.ext_iff] <;>
  (try split_ifs) <;>
  simp
  all_goals first
    | (intro h; have h' := cons_append_shift _ _ _ _ h; simp_all [Payload.clash])
    | (intro h; have h' := cons_append_shift _ _ _ _ h.symm; simp_all [Payload.clash])
    | (simp [Payload.clash] at hab hba
       first
       | (cases h : x.Old.data <;> (simp_all; done))
       | (cases h : y.Old.data <;> simp_all <;> (rintro rfl; simp_all)))
    | (simp [Payload.clash] at hab hba
       rcases verbD_head y.Offset with ⟨hs, d, r, hd, hdig⟩ | ⟨hs, d, r, hd, hdig⟩ <;>
       first
       | omega
       | (obtain ⟨⟨h1, h2, h3, h4, h5, h6⟩, ⟨k1, k2, k3, k4, k5, k6⟩⟩ := isDigit_ne hdig
          simp_all; done))
    | (simp [Payload.clash] at hab hba
       rcases verbD_head x.Offset with ⟨hs, d, r, hd, hdig⟩ | ⟨hs, d, r, hd, hdig⟩ <;>
       first
       | omega
       | (obtain ⟨⟨h1, h2, h3, h4, h5, h6⟩, ⟨k1, k2, k3, k4, k5, k6⟩⟩ := isDigit_ne hdig
          simp_all))

/-- C6 (amended), at an input: over the identifier `v`, the replace payload and
the replace-prefix payload with `Old` = `a` and `New` = `b`. -/
theorem C6_distinct_kinds_witness :
    (Payload.ReplaceExp ⟨false, 0, "a", 0, "b"⟩).kind
      ≠ (Payload.ReplacePrefixExp ⟨0, 0, "a", 0, "b"⟩).kind
    ∧ (Payload.ReplaceExp ⟨false, 0, "a", 0, "b"⟩).kind ≠ .DelSuffix
    ∧ (Payload.ReplacePrefixExp ⟨0, 0, "a", 0, "b"⟩).kind ≠ .DelSuffix
    ∧ (Payload.ReplaceExp ⟨false, 0, "a", 0, "b"⟩).clash
        (.ReplacePrefixExp ⟨0, 0, "a", 0, "b"⟩) = false
    ∧ (Payload.ReplacePrefixExp ⟨0, 0, "a", 0, "b"⟩).clash
        (.ReplaceExp ⟨false, 0, "a", 0, "b"⟩) = false
    ∧ ∃ s t, ExprStr (fun _ => "") (.ParamExp (ParamExp.single 0 0 (.Ident ⟨0, "v"⟩) 0
          (.ReplaceExp ⟨false, 0, "a", 0, "b"⟩))) = some s
        ∧ ExprStr (fun _ => "") (.ParamExp (ParamExp.single 0 0 (.Ident ⟨0, "v"⟩) 0
          (.ReplacePrefixExp ⟨0, 0, "a", 0, "b"⟩))) = some t
        ∧ s ≠ t :=
  ⟨by decide, by decide, by decide, by decide, rfl,
    C6_distinct_kinds_distinct_texts (fun _ => "") 0 0 0 0 0 0 (.Ident ⟨0, "v"⟩)
      (.ReplaceExp ⟨false, 0, "a", 0, "b"⟩) (.ReplacePrefixExp ⟨0, 0, "a", 0, "b"⟩)
      (by decide) (by decide) (by decide) (by decide) rfl⟩

/-- C7. On the parameter expansion over the identifier `name` with a
case-conversion payload, `ExprStr` writes the suffixes `^`, `^^`, `,` and `,,`
for the four flag combinations, but after the reflection dump of the node
`Var`, so the texts are not `${name^^}` and `${name,}`. -/
theorem C7_caseConversion_name (fields : Expr → String) :
    ExprStr fields (.ParamExp { ParamExp.plain 0 0 (.Ident ⟨0, "name"⟩) 0 with
        CaseConversionExp := some ⟨true, true⟩ })
      = some "$\x7b&\x7b%!s(token.Pos=0) name\x7d^\x7d"
    ∧ ExprStr fields (.ParamExp { ParamExp.plain 0 0 (.Ident ⟨0, "name"⟩) 0 with
        CaseConversionExp := some ⟨false, true⟩ })
      = some "$\x7b&\x7b%!s(token.Pos=0) name\x7d^^\x7d"
    ∧ ExprStr fields (.ParamExp { ParamExp.plain 0 0 (.Ident ⟨0, "name"⟩) 0 with
        CaseConversionExp := some ⟨true, false⟩ })
      = some "$\x7b&\x7b%!s(token.Pos=0) name\x7d,\x7d"
    ∧ ExprStr fields (.ParamExp { ParamExp.plain 0 0 (.Ident ⟨0, "name"⟩) 0 with
        CaseConversionExp := some ⟨false, false⟩ })
      = some "$\x7b&\x7b%!s(token.Pos=0) name\x7d,,\x7d" :=
  ⟨rfl, rfl, rfl, rfl⟩

/-- C8. `ExprStr` panics on the parameter expansion over the identifier `v`
whose only payload is a suffix-delete with value `x`, and on a call expression
whose callee pointer is nil. -/
theorem C8_ExprStr_panics (fields : Expr → String) :
    ExprStr fields (.ParamExp { ParamExp.plain 0 0 (.Ident ⟨0, "v"⟩) 0 with
        DelSuffix := some ⟨false, 0, .Ident ⟨0, "x"⟩⟩ }) = none
    ∧ ExprStr fields (.CallExpr none []) = none :=
  ⟨rfl, rfl⟩

/-- C9. On the if-statement `sampleIf`, whose body, else-if body and else block
are the distinct commands `a`, `b` and `c`, `String` prints the body `a` three
times: under `if c1`, under `else if c2` and under `else`. -/
theorem C9_if_repeats_first_body (fields : Expr → String) :
    String' fields (.Stmt sampleIf)
      = some "if c1\n   a\nelse if c2\n   a\nelse\n   a\nend\n" :=
  rfl

/-- C10. On the declaration `sampleFunc`, the text `String` returns is the
header line alone; the line `end` is written to standard error. -/
theorem C10_func_end_not_in_output (fields : Expr → String) :
    String' fields (.Decl sampleFunc) = some "function f \n"
    ∧ (printer.Visit fields Proc.init (.Decl sampleFunc)).map (fun s => s.stderr)
        = some "end\n" :=
  ⟨rfl, rfl⟩

end ast

namespace ast
open token

/-- C11 (as stated, refuted). On the call expression with callee `echo` and an
empty argument list, `ExprStr` returns `echo` followed by a blank, not `echo`. -/
theorem C11_echo_has_trailing_blank :
    ExprStr (fun _ => "") (.CallExpr (some ⟨0, "echo"⟩) []) = some "echo "
    ∧ ExprStr (fun _ => "") (.CallExpr (some ⟨0, "echo"⟩) []) ≠ some "echo" :=
  ⟨rfl, by decide⟩

/-- C11 (amended). For every call expression with an empty argument list,
`ExprStr` returns the callee's name followed by one blank. -/
theorem C11_call_without_arguments (fields : Expr → String) (callee : Ident) :
    ExprStr fields (.CallExpr (some callee) []) = some (callee.Name ++ " ") := by
  show some (callee.Name ++ " " ++ "") = _
  simp

/-- C12. For every binary expression whose operands render to `l` and `r`:
with the operator `NONE`, `ExprStr` returns `l ++ r` when `Compress` is set and
`l ++ " " ++ r` when it is not; with another operator `op`, it returns
`l ++ op ++ r` when `Compress` is set and `l ++ " " ++ op ++ " " ++ r` when it
is not. -/
theorem C12_binaryExpr (fields : Expr → String) (compress : Bool) (x y : Expr) (opPos : Pos)
    (op : Token) (l r : String) (hl : ExprStr fields x = some l) (hr : ExprStr fields y = some r) :
    ExprStr fields (.BinaryExpr compress x opPos op y) =
      some (if op = NONE then (if compress = true then l ++ r else l ++ " " ++ r)
            else if compress = true then l ++ op ++ r else l ++ " " ++ op ++ " " ++ r) := by
  show (ExprStr fields x).bind _ = _
  rw [hl]
  show (ExprStr fields y).bind _ = _
  rw [hr]
  by_cases h : op = NONE <;> cases compress <;> simp [h]

/-- C12, at the identifier `a` and the word literal `b` with the operator `NONE`:
the theorem gives `ab` with `Compress` set and `a b` without. -/
theorem C12_binaryExpr_witness :
    ExprStr (fun _ => "") (.Ident ⟨0, "a"⟩) = some "a"
    ∧ ExprStr (fun _ => "") (.BasicLit WORD "b" 0) = some "b"
    ∧ ExprStr (fun _ => "") (.BinaryExpr true (.Ident ⟨0, "a"⟩) 0 NONE (.BasicLit WORD "b" 0))
        = some "ab"
    ∧ ExprStr (fun _ => "") (.BinaryExpr false (.Ident ⟨0, "a"⟩) 0 NONE (.BasicLit WORD "b" 0))
        = some "a b" :=
  ⟨rfl, rfl,
    C12_binaryExpr (fun _ => "") true (.Ident ⟨0, "a"⟩) (.BasicLit WORD "b" 0) 0 NONE "a" "b" rfl rfl,
    C12_binaryExpr (fun _ => "") false (.Ident ⟨0, "a"⟩) (.BasicLit WORD "b" 0) 0 NONE "a" "b"
      rfl rfl⟩

/-- C13. For every command substitution whose inner expression renders to `X`,
`ExprStr` returns `$( X )` when `Tok` is `LPAREN` and the backtick form for
every other `Tok`; the two texts differ, so the form tells whether `Tok` is
`LPAREN`. -/
theorem C13_cmdSubst (fields : Expr → String) (dollar opening closing : Pos) (tok : Token)
    (x : Expr) (X : String) (hx : ExprStr fields x = some X) :
    (tok = LPAREN → ExprStr fields (.CmdSubst dollar tok opening x closing)
        = some ("$( " ++ X ++ " )"))
    ∧ (tok ≠ LPAREN → ExprStr fields (.CmdSubst dollar tok opening x closing)
        = some ("` " ++ X ++ " `"))
    ∧ "$( " ++ X ++ " )" ≠ "` " ++ X ++ " `" := by
  refine ⟨?_, ?_, ?_⟩
  · intro h
    show (ExprStr fields x).bind _ = _
    rw [hx]
    simp [h]
  · intro h
    show (ExprStr fields x).bind _ = _
    rw [hx]
    simp [h]
  · rw [Ne, String.ext_iff]
    simp

/-- C13, at the call `echo hi`: `$( echo hi )` with `LPAREN`, the backtick form
with `BACK_QUOTE`. -/
theorem C13_cmdSubst_witness :
    ExprStr (fun _ => "") (.CallExpr (some ⟨0, "echo"⟩) [.Ident ⟨0, "hi"⟩]) = some "echo hi"
    ∧ ExprStr (fun _ => "") (.CmdSubst 0 LPAREN 0
        (.CallExpr (some ⟨0, "echo"⟩) [.Ident ⟨0, "hi"⟩]) 0) = some "$( echo hi )"
    ∧ ExprStr (fun _ => "") (.CmdSubst 0 BACK_QUOTE 0
        (.CallExpr (some ⟨0, "echo"⟩) [.Ident ⟨0, "hi"⟩]) 0) = some "` echo hi `" :=
  ⟨rfl,
    (C13_cmdSubst (fun _ => "") 0 0 0 LPAREN (.CallExpr (some ⟨0, "echo"⟩) [.Ident ⟨0, "hi"⟩])
      "echo hi" rfl).1 rfl,
    (C13_cmdSubst (fun _ => "") 0 0 0 BACK_QUOTE (.CallExpr (some ⟨0, "echo"⟩) [.Ident ⟨0, "hi"⟩])
      "echo hi" rfl).2.1 (by decide)⟩

end ast

namespace ast
open token

/-! ### The printer appends to its buffer -/

theorem after_println (s r : Proc) (toks : List String) :
    (s.after r).println toks = s.after (r.println toks) := by
  simp [Proc.after, Proc.println, printer.println, String.append_assoc]

theorem after_println_c (s r : Proc) (toks : List String) :
    (s.after r).println_c toks = s.after (r.println_c toks) := by
  simp [Proc.after, Proc.println_c, printer.println_c, String.append_assoc]

theorem after_setIdent (s r : Proc) (i : String) :
    (s.after r).setIdent i = s.after (r.setIdent i) := by
  simp [Proc.after, Proc.setIdent]

theorem after_builtinPrintln (s r : Proc) (tok : String) :
    (s.after r).builtinPrintln tok = s.after (r.builtinPrintln tok) := by
  simp [Proc.after, Proc.builtinPrintln, String.append_assoc]

theorem after_ident (s r : Proc) : (s.after r).p.ident = r.p.ident := rfl

theorem VisitStmt_If_eq (fields : Expr → String) (s : Proc) (w : Pos) (cond : Expr)
    (b : BlockStmt Stmt) (elifs : List (Option IfStmt)) (els : Option (BlockStmt Stmt)) (e : Pos) :
    printer.VisitStmt fields s (.IfStmt (.mk w cond (some b) elifs els e)) =
      (ExprStr fields cond).bind (fun c =>
        (printer.block fields ((s.println [IF, c]).setIdent ((s.println [IF, c]).p.ident ++ "  "))
            b.List).bind (fun s1 =>
          (List.foldlM (printer.elifStep fields b.List)
              (s1.setIdent (s.println [IF, c]).p.ident) elifs).bind (fun s2 =>
            if els.isSome = true then
              (printer.block fields
                  ((s2.println [ELSE]).setIdent ((s2.println [ELSE]).p.ident ++ "  "))
                  b.List).bind (fun s3 =>
                some ((s3.setIdent (s2.println [ELSE]).p.ident).println [END]))
            else some (s2.println [END])))) := by
  rfl
end ast

namespace ast
open token

theorem VisitStmt_While_eq (fields : Expr → String) (s : Proc) (w : Pos) (cond : Expr)
    (b : BlockStmt Stmt) (e : Pos) :
    printer.VisitStmt fields s (.WhileStmt w cond (some b) e) =
      (ExprStr fields cond).bind (fun c =>
        (printer.block fields
            ((s.println [WHILE, c]).setIdent ((s.println [WHILE, c]).p.ident ++ "  "))
            b.List).bind (fun s1 =>
          some ((s1.setIdent (s.println [WHILE, c]).p.ident).println [END]))) := rfl

theorem VisitStmt_Foreach_eq (fields : Expr → String) (s : Proc) (w : Pos) (elem : Expr)
    (i : Pos) (group : List Expr) (b : BlockStmt Stmt) (e : Pos) :
    printer.VisitStmt fields s (.ForeachStmt w elem i group (some b) e) =
      (ExprStr fields elem).bind (fun x =>
        (ExprListStr fields group).bind (fun g =>
          (printer.block fields
              ((s.println [FOR, x, IN, g]).setIdent ((s.println [FOR, x, IN, g]).p.ident ++ "  "))
              b.List).bind (fun s1 =>
            some ((s1.setIdent (s.println [FOR, x, IN, g]).p.ident).println [END])))) := rfl

theorem VisitStmt_Switch_eq (fields : Expr → String) (s : Proc) (sw lp : Pos) (var : Expr)
    (rp : Pos) (cs : List (Option (CaseClause Stmt))) (els : Option (BlockStmt Stmt)) (e : Pos) :
    printer.VisitStmt fields s (.SwitchStmt sw lp var rp cs els e) =
      (ExprStr fields var).bind (fun v =>
        (printer.VisitStmt.cases fields (s.println [SWITCH, LPAREN ++ v ++ RPAREN]) cs).bind
          (fun s1 =>
            match els with
            | some eb =>
                (printer.block fields
                    ((s1.println [CASE, "'*'"]).setIdent ((s1.println [CASE, "'*'"]).p.ident ++ "  "))
                    eb.List).bind (fun s2 =>
                  some ((s2.setIdent (s1.println [CASE, "'*'"]).p.ident).println [END]))
            | none => some (s1.println [END]))) := by
  cases els <;> rfl

theorem cases_cons_eq (fields : Expr → String) (s : Proc) (c : Pos) (conds : List Expr)
    (b : BlockStmt Stmt) (cs : List (Option (CaseClause Stmt))) :
    printer.VisitStmt.cases fields s (some ⟨c, conds, some b⟩ :: cs) =
      (ExprListStr.loop fields conds).bind (fun l =>
        (printer.block fields
            ((s.println [CASE, strings.Join l " "]).setIdent
              ((s.println [CASE, strings.Join l " "]).p.ident ++ "  "))
            b.List).bind (fun s1 =>
          printer.VisitStmt.cases fields
            (s1.setIdent (s.println [CASE, strings.Join l " "]).p.ident) cs)) := rfl

theorem block_cons_eq (fields : Expr → String) (s : Proc) (st : Stmt) (rest : List Stmt) :
    printer.block fields s (st :: rest) =
      (printer.VisitStmt fields s st).bind (fun s' => printer.block fields s' rest) := rfl

theorem elifStep_after (fields : Expr → String) (body : List Stmt)
    (hb : ∀ s r, printer.block fields (Proc.after s r) body
      = (printer.block fields r body).map s.after)
    (s r : Proc) (elif : Option IfStmt) :
    printer.elifStep fields body (s.after r) elif
      = (printer.elifStep fields body r elif).map s.after := by
  cases elif with
  | none => rfl
  | some i =>
    cases i with
    | mk w econd b' el els e =>
      show (ExprStr fields econd).bind _ = Option.map _ ((ExprStr fields econd).bind _)
      simp only [after_println, after_setIdent, after_ident, hb]
      cases ExprStr fields econd with
      | none => rfl
      | some ec =>
        simp only [Option.some_bind]
        cases printer.block fields
            ((r.println [ELSE, IF, ec]).setIdent ((r.println [ELSE, IF, ec]).p.ident ++ "  "))
            body with
        | none => rfl
        | some s' => simp [after_setIdent]

theorem elifFold_after (fields : Expr → String) (body : List Stmt)
    (hb : ∀ s r, printer.block fields (Proc.after s r) body
      = (printer.block fields r body).map s.after) :
    ∀ (elifs : List (Option IfStmt)) (s r : Proc),
      List.foldlM (printer.elifStep fields body) (s.after r) elifs
        = (List.foldlM (printer.elifStep fields body) r elifs).map s.after
  | [], s, r => rfl
  | elif :: rest, s, r => by
    simp only [List.foldlM_cons, elifStep_after fields body hb]
    cases printer.elifStep fields body r elif with
    | none => rfl
    | some r' => simpa using elifFold_after fields body hb rest s r'

mutual
theorem VisitStmt_after (fields : Expr → String) : ∀ (st : Stmt) (s r : Proc),
    printer.VisitStmt fields (s.after r) st = (printer.VisitStmt fields r st).map s.after
  | .nil, _, _ => rfl
  | .BlockStmt _, _, _ => rfl
  | .BreakStmt _, s, r => by
    show some _ = some _
    rw [after_println]
  | .ContinueStmt _, s, r => by
    show some _ = some _
    rw [after_println]
  | .ExprStmt x, s, r => by
    show (ExprStr fields x).bind _ = Option.map _ ((ExprStr fields x).bind _)
    cases ExprStr fields x <;> simp [after_println]
  | .ReturnStmt _ x, s, r => by
    show (ExprStr fields x).bind _ = Option.map _ ((ExprStr fields x).bind _)
    cases ExprStr fields x <;> simp [after_println]
  | .AssignStmt l lhs _ rhs, s, r => by
    show (ExprStr fields lhs).bind _ = Option.map _ ((ExprStr fields lhs).bind _)
    cases ExprStr fields lhs with
    | none => rfl
    | some a =>
      show (ExprStr fields rhs).bind _ = Option.map _ ((ExprStr fields rhs).bind _)
      cases ExprStr fields rhs with
      | none => rfl
      | some b => cases l <;> simp [after_println_c]
  | .WhileStmt _ cond none _, s, r => by
    show (ExprStr fields cond).bind _ = Option.map _ ((ExprStr fields cond).bind _)
    cases ExprStr fields cond <;> rfl
  | .WhileStmt w cond (some b) e, s, r => by
    have hb := block_after fields b.List
    rw [VisitStmt_While_eq, VisitStmt_While_eq]
    simp only [after_println, after_setIdent, after_ident, hb]
    cases ExprStr fields cond with
    | none => rfl
    | some c =>
      simp only [Option.some_bind]
      cases printer.block fields
          ((r.println [WHILE, c]).setIdent ((r.println [WHILE, c]).p.ident ++ "  ")) b.List with
      | none => rfl
      | some s' => simp [after_println, after_setIdent]
  | .ForeachStmt _ elem _ group none _, s, r => by
    show (ExprStr fields elem).bind _ = Option.map _ ((ExprStr fields elem).bind _)
    cases ExprStr fields elem with
    | none => rfl
    | some x =>
      show (ExprListStr fields group).bind _ = Option.map _ ((ExprListStr fields group).bind _)
      cases ExprListStr fields group <;> rfl
  | .ForeachStmt w elem i group (some b) e, s, r => by
    have hb := block_after fields b.List
    rw [VisitStmt_Foreach_eq, VisitStmt_Foreach_eq]
    simp only [after_println, after_setIdent, after_ident, hb]
    cases ExprStr fields elem with
    | none => rfl
    | some x =>
      simp only [Option.some_bind]
      cases ExprListStr fields group with
      | none => rfl
      | some g =>
        simp only [Option.some_bind]
        cases printer.block fields
            ((r.println [FOR, x, IN, g]).setIdent ((r.println [FOR, x, IN, g]).p.ident ++ "  "))
            b.List with
        | none => rfl
        | some s' => simp [after_println, after_setIdent]
  | .IfStmt (.mk _ cond none _ _ _), s, r => by
    show (ExprStr fields cond).bind _ = Option.map _ ((ExprStr fields cond).bind _)
    cases ExprStr fields cond <;> rfl
  | .IfStmt (.mk w cond (some b) elifs els e), s, r => by
    have hb := block_after fields b.List
    rw [VisitStmt_If_eq, VisitStmt_If_eq]
    simp only [after_println, after_setIdent, after_ident, hb]
    cases ExprStr fields cond with
    | none => rfl
    | some c =>
      simp only [Option.some_bind]
      cases printer.block fields
          ((r.println [IF, c]).setIdent ((r.println [IF, c]).p.ident ++ "  ")) b.List with
      | none => rfl
      | some s1 =>
        simp only [Option.map_some', Option.some_bind, after_setIdent,
          elifFold_after fields b.List hb]
        cases List.foldlM (printer.elifStep fields b.List)
            (s1.setIdent (r.println [IF, c]).p.ident) elifs with
        | none => rfl
        | some s2 =>
          simp only [Option.map_some', Option.some_bind, after_println, after_setIdent,
            after_ident, hb]
          cases els with
          | none => simp
          | some eb =>
            simp only [Option.isSome_some, if_true]
            cases printer.block fields
                ((s2.println [ELSE]).setIdent ((s2.println [ELSE]).p.ident ++ "  ")) b.List with
            | none => rfl
            | some s3 => simp [after_println, after_setIdent]
  | .SwitchStmt sw lp var rp cs none e, s, r => by
    have hc := cases_after fields cs
    rw [VisitStmt_Switch_eq, VisitStmt_Switch_eq]
    simp only [after_println, hc]
    cases ExprStr fields var with
    | none => rfl
    | some v =>
      simp only [Option.some_bind]
      cases printer.VisitStmt.cases fields (r.println [SWITCH, LPAREN ++ v ++ RPAREN]) cs with
      | none => rfl
      | some s1 => simp [after_println]
  | .SwitchStmt sw lp var rp cs (some eb) e, s, r => by
    have hc := cases_after fields cs
    have hb := block_after fields eb.List
    rw [VisitStmt_Switch_eq, VisitStmt_Switch_eq]
    simp only [after_println, hc]
    cases ExprStr fields var with
    | none => rfl
    | some v =>
      simp only [Option.some_bind]
      cases printer.VisitStmt.cases fields (r.println [SWITCH, LPAREN ++ v ++ RPAREN]) cs with
      | none => rfl
      | some s1 =>
        simp only [Option.map_some', Option.some_bind, after_println, after_setIdent,
          after_ident, hb]
        cases printer.block fields
            ((s1.println [CASE, "'*'"]).setIdent ((s1.println [CASE, "'*'"]).p.ident ++ "  "))
            eb.List with
        | none => rfl
        | some s2 => simp [after_println, after_setIdent]
theorem cases_after (fields : Expr → String) :
    ∀ (cs : List (Option (CaseClause Stmt))) (s r : Proc),
      printer.VisitStmt.cases fields (s.after r) cs
        = (printer.VisitStmt.cases fields r cs).map s.after
  | [], _, _ => rfl
  | none :: _, _, _ => rfl
  | some ⟨_, conds, none⟩ :: _, s, r => by
    show (ExprListStr.loop fields conds).bind _ = Option.map _ ((ExprListStr.loop fields conds).bind _)
    cases ExprListStr.loop fields conds <;> rfl
  | some ⟨c, conds, some b⟩ :: cs, s, r => by
    have hb := block_after fields b.List
    have hc := cases_after fields cs
    rw [cases_cons_eq, cases_cons_eq]
    simp only [after_println, after_setIdent, after_ident, hb]
    cases ExprListStr.loop fields conds with
    | none => rfl
    | some l =>
      simp only [Option.some_bind]
      cases printer.block fields
          ((r.println [CASE, strings.Join l " "]).setIdent
            ((r.println [CASE, strings.Join l " "]).p.ident ++ "  ")) b.List with
      | none => rfl
      | some s1 => simp [after_setIdent, hc]
theorem block_after (fields : Expr → String) : ∀ (l : List Stmt) (s r : Proc),
    printer.block fields (s.after r) l = (printer.block fields r l).map s.after
  | [], _, _ => rfl
  | st :: rest, s, r => by
    have h1 := VisitStmt_after fields st
    have h2 := block_after fields rest
    rw [block_cons_eq, block_cons_eq, h1]
    cases printer.VisitStmt fields r st with
    | none => rfl
    | some s' => simp [h2]
end

end ast

namespace ast
open token

/-! ### The printer restores its indentation -/

theorem elifStep_ident (fields : Expr → String) (body : List Stmt) (s r : Proc)
    (elif : Option IfStmt) (h : printer.elifStep fields body s elif = some r) :
    r.p.ident = s.p.ident := by
  cases elif with
  | none => cases h
  | some i =>
    cases i with
    | mk w econd b' el els e =>
      change (ExprStr fields econd).bind (fun ec =>
        (printer.block fields
          ((s.println [ELSE, IF, ec]).setIdent ((s.println [ELSE, IF, ec]).p.ident ++ "  "))
          body).bind (fun s1 => some (s1.setIdent (s.println [ELSE, IF, ec]).p.ident))) = some r at h
      simp only [Option.bind_eq_some] at h
      obtain ⟨ec, -, s1, -, h⟩ := h
      cases h
      rfl

theorem elifFold_ident (fields : Expr → String) (body : List Stmt) :
    ∀ (elifs : List (Option IfStmt)) (s r : Proc),
      List.foldlM (printer.elifStep fields body) s elifs = some r → r.p.ident = s.p.ident
  | [], s, r, h => by cases h; rfl
  | elif :: rest, s, r, h => by
    simp only [List.foldlM_cons, Option.bind_eq_bind, Option.bind_eq_some] at h
    obtain ⟨s1, h1, h2⟩ := h
    rw [elifFold_ident fields body rest s1 r h2, elifStep_ident fields body s s1 elif h1]

theorem cases_ident (fields : Expr → String) :
    ∀ (cs : List (Option (CaseClause Stmt))) (s r : Proc),
      printer.VisitStmt.cases fields s cs = some r → r.p.ident = s.p.ident
  | [], s, r, h => by cases h; rfl
  | none :: _, s, r, h => by cases h
  | some ⟨_, conds, none⟩ :: _, s, r, h => by
    change (ExprListStr.loop fields conds).bind (fun _ => none) = some r at h
    simp only [Option.bind_eq_some] at h
    obtain ⟨_, -, h⟩ := h
    cases h
  | some ⟨c, conds, some b⟩ :: cs, s, r, h => by
    rw [cases_cons_eq] at h
    simp only [Option.bind_eq_some] at h
    obtain ⟨l, -, s1, -, h⟩ := h
    have h' := cases_ident fields cs _ r h
    exact h'

theorem VisitStmt_ident (fields : Expr → String) (st : Stmt) (s r : Proc)
    (h : printer.VisitStmt fields s st = some r) : r.p.ident = s.p.ident := by
  cases st with
  | nil => cases h; rfl
  | BlockStmt b => cases h; rfl
  | BreakStmt p => cases h; rfl
  | ContinueStmt p => cases h; rfl
  | ExprStmt x =>
    change (ExprStr fields x).bind (fun v => some (s.println [v])) = some r at h
    simp only [Option.bind_eq_some] at h
    obtain ⟨v, -, h⟩ := h
    cases h; rfl
  | ReturnStmt p x =>
    change (ExprStr fields x).bind (fun v => some (s.println [RETURN, v])) = some r at h
    simp only [Option.bind_eq_some] at h
    obtain ⟨v, -, h⟩ := h
    cases h; rfl
  | AssignStmt l lhs a rhs =>
    change (ExprStr fields lhs).bind (fun a => (ExprStr fields rhs).bind (fun b =>
      if l = true then some (s.println_c [LOCAL, SPACE, a, ASSIGN, b])
      else some (s.println_c [a, ASSIGN, b]))) = some r at h
    simp only [Option.bind_eq_some] at h
    obtain ⟨a, -, b, -, h⟩ := h
    cases l <;> (simp at h; cases h; rfl)
  | WhileStmt w cond body e =>
    cases body with
    | none =>
      change (ExprStr fields cond).bind (fun _ => none) = some r at h
      simp only [Option.bind_eq_some] at h
      obtain ⟨_, -, h⟩ := h
      cases h
    | some b =>
      rw [VisitStmt_While_eq] at h
      simp only [Option.bind_eq_some] at h
      obtain ⟨c, -, s1, -, h⟩ := h
      cases h; rfl
  | ForeachStmt w elem i group body e =>
    cases body with
    | none =>
      change (ExprStr fields elem).bind (fun _ => (ExprListStr fields group).bind (fun _ => none))
        = some r at h
      simp only [Option.bind_eq_some] at h
      obtain ⟨_, -, _, -, h⟩ := h
      cases h
    | some b =>
      rw [VisitStmt_Foreach_eq] at h
      simp only [Option.bind_eq_some] at h
      obtain ⟨x, -, g, -, s1, -, h⟩ := h
      cases h; rfl
  | IfStmt i =>
    cases i with
    | mk w cond body elifs els e =>
      cases body with
      | none =>
        change (ExprStr fields cond).bind (fun _ => none) = some r at h
        simp only [Option.bind_eq_some] at h
        obtain ⟨_, -, h⟩ := h
        cases h
      | some b =>
        rw [VisitStmt_If_eq] at h
        simp only [Option.bind_eq_some] at h
        obtain ⟨c, -, s1, -, s2, h2, h⟩ := h
        have hi := elifFold_ident fields b.List elifs _ s2 h2
        cases els with
        | none =>
          simp at h
          cases h
          exact hi
        | some eb =>
          simp only [Option.isSome_some, if_true, Option.bind_eq_some] at h
          obtain ⟨s3, -, h⟩ := h
          cases h
          exact hi
  | SwitchStmt sw lp var rp cs els e =>
    rw [VisitStmt_Switch_eq] at h
    simp only [Option.bind_eq_some] at h
    obtain ⟨v, -, s1, h1, h⟩ := h
    have hi := cases_ident fields cs _ s1 h1
    cases els with
    | none =>
      simp at h
      cases h
      exact hi
    | some eb =>
      simp only [Option.bind_eq_some] at h
      obtain ⟨s2, -, h⟩ := h
      cases h
      exact hi

theorem VisitDecl_eq (fields : Expr → String) (s : Proc) (f : Pos) (name : Ident)
    (recv : List Expr) (b : BlockStmt Stmt) (e : Pos) :
    printer.VisitDecl fields s (.FuncDecl ⟨f, some name, recv, some b, e⟩) =
      (ExprListStr fields recv).bind (fun g =>
        (printer.block fields
            ((s.println [FUNCTION, name.Name, g]).setIdent
              ((s.println [FUNCTION, name.Name, g]).p.ident ++ "  "))
            b.List).bind (fun s1 =>
          some ((s1.setIdent (s.println [FUNCTION, name.Name, g]).p.ident).builtinPrintln END))) :=
  rfl

theorem VisitDecl_after (fields : Expr → String) (d : Decl) (s r : Proc) :
    printer.VisitDecl fields (s.after r) d = (printer.VisitDecl fields r d).map s.after := by
  cases d with
  | nil => rfl
  | FuncDecl n =>
    obtain ⟨f, name, recv, body, e⟩ := n
    cases name with
    | none => rfl
    | some name =>
      cases body with
      | none =>
        change (ExprListStr fields recv).bind (fun _ => none)
          = Option.map _ ((ExprListStr fields recv).bind (fun _ => none))
        cases ExprListStr fields recv <;> rfl
      | some b =>
        rw [VisitDecl_eq, VisitDecl_eq]
        simp only [after_println, after_setIdent, after_ident, block_after]
        cases ExprListStr fields recv with
        | none => rfl
        | some g =>
          simp only [Option.some_bind]
          cases printer.block fields
              ((r.println [FUNCTION, name.Name, g]).setIdent
                ((r.println [FUNCTION, name.Name, g]).p.ident ++ "  ")) b.List with
          | none => rfl
          | some s1 => simp [after_builtinPrintln, after_setIdent]

theorem VisitDecl_ident (fields : Expr → String) (d : Decl) (s r : Proc)
    (h : printer.VisitDecl fields s d = some r) : r.p.ident = s.p.ident := by
  cases d with
  | nil => cases h; rfl
  | FuncDecl n =>
    obtain ⟨f, name, recv, body, e⟩ := n
    cases name with
    | none => cases h
    | some name =>
      cases body with
      | none =>
        change (ExprListStr fields recv).bind (fun _ => none) = some r at h
        simp only [Option.bind_eq_some] at h
        obtain ⟨_, -, h⟩ := h
        cases h
      | some b =>
        rw [VisitDecl_eq] at h
        simp only [Option.bind_eq_some] at h
        obtain ⟨g, -, s1, -, h⟩ := h
        cases h; rfl

end ast

namespace ast
open token

/-! ### A sequence of nodes printed from the top level -/

theorem after_init (a : Proc) (h : a.p.ident = "") : a.after Proc.init = a := by
  obtain ⟨⟨o, i, t⟩, e⟩ := a
  simp only at h
  subst h
  simp [Proc.after, Proc.init]

theorem mapM_map {α β γ : Type} (h : α → Option β) (φ : β → γ) :
    ∀ l : List α, l.mapM (fun x => (h x).map φ) = (l.mapM h).map (List.map φ)
  | [] => rfl
  | x :: rest => by
    simp only [List.mapM_cons, mapM_map h φ rest]
    cases h x with
    | none => rfl
    | some b => cases List.mapM h rest <;> rfl

theorem foldl_append_from (l : List String) : ∀ x : String,
    List.foldl (fun r s => r ++ s) x l = x ++ List.foldl (fun r s => r ++ s) "" l := by
  induction l with
  | nil => intro x; simp
  | cons y l ih =>
    intro x
    rw [List.foldl_cons, List.foldl_cons, ih, ih ("" ++ y)]
    simp [String.append_assoc]

theorem join_append (a b : List String) :
    String.join (a ++ b) = String.join a ++ String.join b := by
  simp only [String.join, List.foldl_append]
  rw [foldl_append_from b]

theorem foldl_after_output (rs : List Proc) : ∀ a : Proc,
    (rs.foldl Proc.after a).p.output = a.p.output ++ String.join (rs.map (fun r => r.p.output)) := by
  induction rs with
  | nil => intro a; simp [String.join]
  | cons r rest ih =>
    intro a
    rw [List.foldl_cons, ih]
    simp only [List.map_cons, String.join, List.foldl_cons, Proc.after]
    rw [foldl_append_from _ ("" ++ r.p.output)]
    simp [String.append_assoc]

theorem foldl_after_ident (rs : List Proc) : ∀ a : Proc, a.p.ident = "" →
    (∀ r ∈ rs, r.p.ident = "") → (rs.foldl Proc.after a).p.ident = "" := by
  induction rs with
  | nil => intro a h _; exact h
  | cons r rest ih =>
    intro a _ hr
    rw [List.foldl_cons]
    exact ih _ (hr r (List.mem_cons_self _ _)) (fun x hx => hr x (List.mem_cons_of_mem _ hx))

theorem foldlM_top {α : Type} (g : Proc → α → Option Proc)
    (hframe : ∀ s r x, g (Proc.after s r) x = (g r x).map s.after)
    (hident : ∀ s r x, g s x = some r → r.p.ident = s.p.ident) :
    ∀ (l : List α) (a : Proc), a.p.ident = "" →
      l.foldlM g a = (l.mapM (g Proc.init)).map (fun rs => rs.foldl Proc.after a)
  | [], a, _ => rfl
  | x :: rest, a, ha => by
    have hx : g a x = (g Proc.init x).map a.after := by
      rw [← hframe, after_init a ha]
    simp only [List.foldlM_cons, List.mapM_cons, hx]
    cases hg : g Proc.init x with
    | none => rfl
    | some r =>
      have hr : r.p.ident = "" := hident _ _ _ hg
      have := foldlM_top g hframe hident rest (a.after r) hr
      simp only [Option.map_some', Option.bind_eq_bind, Option.some_bind, this]
      cases List.mapM (g Proc.init) rest <;> rfl

theorem mapM_ident {α : Type} (g : Proc → α → Option Proc)
    (hident : ∀ s r x, g s x = some r → r.p.ident = s.p.ident) :
    ∀ (l : List α) (rs : List Proc), l.mapM (g Proc.init) = some rs → ∀ r ∈ rs, r.p.ident = ""
  | [], rs, h => by
    cases h
    intro r hr
    cases hr
  | x :: rest, rs, h => by
    simp only [List.mapM_cons, Option.bind_eq_bind, Option.bind_eq_some] at h
    obtain ⟨r0, h0, rs0, h1, h2⟩ := h
    cases h2
    intro r hr
    rcases List.mem_cons.1 hr with rfl | hr
    · exact hident _ _ _ h0
    · exact mapM_ident g hident rest rs0 h1 r hr

/-- C14. For every file, the text `String` returns is the texts of its
declarations, in list order, followed by the texts of its statements, in list
order, each as `String` renders it on its own; `String` panics on the file
exactly when it panics on one of them. -/
theorem C14_file_decls_then_stmts (fields : Expr → String) (f : File) :
    String' fields (.File f) =
      (f.Decls.mapM (fun d => String' fields (.Decl d))).bind (fun ds =>
        (f.Stmts.mapM (fun st => String' fields (.Stmt st))).bind (fun ss =>
          some (String.join (ds ++ ss)))) := by
  have hD := foldlM_top (printer.VisitDecl fields)
    (fun s r x => VisitDecl_after fields x s r) (fun s r x => VisitDecl_ident fields x s r)
  have hS := foldlM_top (printer.VisitStmt fields)
    (fun s r x => VisitStmt_after fields x s r) (fun s r x => VisitStmt_ident fields x s r)
  have e1 : (fun d => String' fields (.Decl d))
      = fun d => (printer.VisitDecl fields Proc.init d).map (fun s => s.p.output) := rfl
  have e2 : (fun st => String' fields (.Stmt st))
      = fun st => (printer.VisitStmt fields Proc.init st).map (fun s => s.p.output) := rfl
  rw [e1, e2, mapM_map, mapM_map]
  show Option.map _ ((List.foldlM (printer.VisitDecl fields) Proc.init f.Decls).bind
    (fun s => List.foldlM (printer.VisitStmt fields) s f.Stmts)) = _
  rw [hD f.Decls Proc.init rfl]
  cases hd : List.mapM (printer.VisitDecl fields Proc.init) f.Decls with
  | none => rfl
  | some ds =>
    have hid : (ds.foldl Proc.after Proc.init).p.ident = "" :=
      foldl_after_ident ds _ rfl
        (mapM_ident _ (fun s r x => VisitDecl_ident fields x s r) _ _ hd)
    simp only [Option.map_some', Option.some_bind]
    rw [hS f.Stmts _ hid]
    cases List.mapM (printer.VisitStmt fields Proc.init) f.Stmts with
    | none => rfl
    | some ss =>
      simp only [Option.map_some', Option.some_bind, foldl_after_output]
      simp [Proc.init, join_append, String.append_assoc]

end ast

namespace ast
open token

/-- The printer run by `Walk`: one call of `printer.Visit` on the root. -/
theorem Walk_printer (fields : Expr → String) (node : Node) (s : Proc) (fuel : Nat) :
    Walk (printer.asVisitor fields) (fuel + 1) () node (some s)
      = some (printer.Visit fields s node) := by
  simp [Walk, printer.asVisitor]

/-- C15. On every block statement as root, `printer.Visit` matches no case and
`String` returns the empty text, whatever the statements of the block; so it
does on the block that holds the statement `sampleIf`. -/
theorem C15_block_root_prints_nothing (fields : Expr → String) (b : BlockStmt Stmt) :
    String' fields (.Stmt (.BlockStmt b)) = some ""
    ∧ String' fields (.Stmt (.BlockStmt (bareBlock [sampleIf]))) = some ""
    ∧ String' fields (.Stmt sampleIf) ≠ some "" := by
  refine ⟨rfl, rfl, ?_⟩
  rw [show String' fields (.Stmt sampleIf)
    = some "if c1\n   a\nelse if c2\n   a\nelse\n   a\nend\n" from rfl]
  decide

/-- C16. On a file, a function declaration or a block statement as root, `Walk`
calls `Visit` on the root and on nothing else, whatever the visitor returns: no
child is visited and `Visit` is never called on nil. -/
theorem C16_walk_containers_visit_root_only {V W : Type}
    (Visit : V → Node → W → Option V × W) (fuel : Nat) (v : V) (w : W)
    (f : File) (d : FuncDecl) (b : BlockStmt Stmt) :
    Walk (traced Visit) (fuel + 1) v (.File f) (w, [])
      = some ((Visit v (.File f) w).2, [.File f])
    ∧ Walk (traced Visit) (fuel + 1) v (.Decl (.FuncDecl d)) (w, [])
      = some ((Visit v (.Decl (.FuncDecl d)) w).2, [.Decl (.FuncDecl d)])
    ∧ Walk (traced Visit) (fuel + 1) v (.Stmt (.BlockStmt b)) (w, [])
      = some ((Visit v (.Stmt (.BlockStmt b)) w).2, [.Stmt (.BlockStmt b)]) := by
  refine ⟨?_, ?_, ?_⟩ <;>
  · simp only [Walk, traced]
    split <;> simp_all

/-- C17. With the visitor that always returns itself, `Walk` on the file that
holds `sampleFunc` and `sampleIf` calls `Visit` on the file alone; with the
visitor that returns nil on its third call, `Walk` on `sampleIf` calls `Visit`
three times on that same node and on none of its children. -/
theorem C17_walk_misses_and_repeats :
    Walk (traced keepGoing) 10 () (.File ⟨none, [sampleIf], [sampleFunc]⟩) ((), [])
      = some ((), [.File ⟨none, [sampleIf], [sampleFunc]⟩])
    ∧ Walk (traced (stopAt 3)) 10 () (.Stmt sampleIf) (0, [])
      = some (3, [.Stmt sampleIf, .Stmt sampleIf, .Stmt sampleIf]) :=
  ⟨rfl, rfl⟩

/-- C18. For a visitor that returns a visitor on every node, and a node of one
of the eight statement kinds on which `Walk` calls itself, `Walk` does not
return within any depth of recursion. -/
theorem C18_walk_never_returns {V W : Type} (Visit : V → Node → W → Option V × W)
    (hv : ∀ v node w, (Visit v node w).1.isSome = true) (node : Node)
    (hn : node.walkedAgain = true) :
    ∀ (fuel : Nat) (v : V) (w : W), Walk Visit fuel v node w = none := by
  intro fuel
  induction fuel with
  | zero => intro v w; rfl
  | succ n ih =>
    intro v w
    have h := hv v node w
    cases hvw : Visit v node w with
    | mk o w' =>
      rw [hvw] at h
      cases o with
      | none => cases h
      | some v' =>
        unfold Walk
        rw [hvw]
        simp only
        split <;> first | exact ih _ _ | simp [Node.walkedAgain] at hn

/-- C18, at the visitor that always returns itself and a break statement. -/
theorem C18_walk_never_returns_witness :
    (∀ v node w, (keepGoing v node w).1.isSome = true)
    ∧ (Node.Stmt (.BreakStmt 1)).walkedAgain = true
    ∧ ∀ (fuel : Nat) (v : Unit) (w : Unit), Walk keepGoing fuel v (.Stmt (.BreakStmt 1)) w = none :=
  ⟨fun _ _ _ => rfl, rfl,
    C18_walk_never_returns keepGoing (fun _ _ _ => rfl) (.Stmt (.BreakStmt 1)) rfl⟩

/-- C19. If `Visit` returns the nil visitor for a node, `Walk` calls `Visit`
once, on that node, and returns with the state that call left: no child is
visited, for every node kind. -/
theorem C19_walk_stops_on_nil {V W : Type} (Visit : V → Node → W → Option V × W)
    (v : V) (node : Node) (w : W) (h : (Visit v node w).1 = none) (fuel : Nat) :
    Walk (traced Visit) (fuel + 1) v node (w, []) = some ((Visit v node w).2, [node]) := by
  simp only [Walk, traced, h, List.nil_append]

/-- C19, at the visitor that returns nil on every node and the statement
`sampleIf`. -/
theorem C19_walk_stops_on_nil_witness :
    (stopNow () (.Stmt sampleIf) ()).1 = none
    ∧ Walk (traced stopNow) 1 () (.Stmt sampleIf) ((), []) = some ((), [.Stmt sampleIf]) :=
  ⟨rfl, C19_walk_stops_on_nil stopNow () (.Stmt sampleIf) () rfl 0⟩

end ast

namespace ast
open token

/-! ### `Pos()` and `End()` among the stored positions -/

theorem firstValid_cons (p : token.Pos) (l : List token.Pos) (h : p.IsValid = true) :
    firstValid (p :: l) p :=
  ⟨l.filter Pos.IsValid, by simp [List.filter_cons, h]⟩

theorem firstValid_append (l m : List token.Pos) (p : token.Pos) (h : firstValid l p) :
    firstValid (l ++ m) p := by
  obtain ⟨rest, hr⟩ := h
  exact ⟨rest ++ m.filter Pos.IsValid, by simp [List.filter_append, hr]⟩

theorem firstValid_skip (q : token.Pos) (l : List token.Pos) (p : token.Pos)
    (hq : q.IsValid = false) (h : firstValid l p) : firstValid (q :: l) p := by
  obtain ⟨rest, hr⟩ := h
  exact ⟨rest, by simp [List.filter_cons, hq, hr]⟩

theorem firstValid_mem (l : List token.Pos) (p : token.Pos) (h : firstValid l p) : p ∈ l := by
  obtain ⟨rest, hr⟩ := h
  have : p ∈ l.filter Pos.IsValid := by rw [hr]; exact List.mem_cons_self _ _
  exact List.mem_of_mem_filter this

theorem Expr_pos_firstValid : ∀ (e : Expr) (p : token.Pos), e.Pos = some p → p.IsValid = true →
    firstValid e.positions p
  | .nil, _, h, _ => by cases h
  | .BinaryExpr _ x opPos _ y, p, h, hv => by
    have ih := Expr_pos_firstValid x p h hv
    exact firstValid_append _ _ _ ih
  | .CallExpr none _, _, h, _ => by cases h
  | .CallExpr (some i) recv, p, h, hv => by
    cases h
    exact firstValid_cons _ _ hv
  | .Ident x, p, h, hv => by cases h; exact firstValid_cons _ _ hv
  | .BasicLit _ _ _, p, h, hv => by cases h; exact firstValid_cons _ _ hv
  | .BasicTestExpr _ _ _, p, h, hv => by cases h; exact firstValid_cons _ _ hv
  | .ExtendedTestExpr _ _ _, p, h, hv => by cases h; exact firstValid_cons _ _ hv
  | .ArithEvalExpr _ _ _, p, h, hv => by cases h; exact firstValid_cons _ _ hv
  | .CmdSubst _ _ _ _ _, p, h, hv => by cases h; exact firstValid_cons _ _ hv
  | .ProcSubst _ _ _ _ _, p, h, hv => by cases h; exact firstValid_cons _ _ hv
  | .ArithExp _ _ _ _, p, h, hv => by cases h; exact firstValid_cons _ _ hv
  | .ParamExp x, p, h, hv => by
    cases h
    exact firstValid_cons _ _ hv


mutual
theorem Expr_end_mem : ∀ (e : Expr) (q : token.Pos), e.End = some q → q.IsValid = true →
    q ∈ e.positions
  | .nil, _, h, _ => by cases h
  | .BinaryExpr _ x opPos _ y, q, h, hv => by
    have ih := Expr_end_mem y q h hv
    show q ∈ Expr.positions x ++ opPos :: Expr.positions y
    simp [ih]
  | .CallExpr f recv, q, h, hv => by
    have ih := Expr_end_mem_ofLast recv q h hv
    exact List.mem_append_right _ ih
  | .Ident x, q, h, _ => by cases h; simp [Expr.positions, Ident.positions]
  | .BasicLit _ _ _, q, h, _ => by cases h; simp [Expr.positions]
  | .BasicTestExpr l x r, q, h, _ => by
    cases h
    show r ∈ l :: Expr.positions x ++ [r]
    simp
  | .ExtendedTestExpr l x r, q, h, _ => by
    cases h
    show r ∈ l :: Expr.positions x ++ [r]
    simp
  | .ArithEvalExpr l x r, q, h, _ => by
    cases h
    show r ∈ l :: Expr.positions x ++ [r]
    simp
  | .CmdSubst d _ o x c, q, h, _ => by
    cases h
    show c ∈ d :: o :: Expr.positions x ++ [c]
    simp
  | .ProcSubst _ tp lp x rp, q, h, _ => by
    cases h
    show rp ∈ tp :: lp :: Expr.positions x ++ [rp]
    simp
  | .ArithExp d lp x rp, q, h, _ => by
    cases h
    show rp ∈ d :: lp :: Expr.positions x ++ [rp]
    simp
  | .ParamExp x, q, h, _ => by
    cases h
    show x.Rbrace ∈ x.Dollar :: x.Lbrace :: [x.Rbrace]
    simp
theorem Expr_end_mem_ofLast : ∀ (l : List Expr) (q : token.Pos), Expr.End.ofLast l = some q →
    q.IsValid = true → q ∈ Expr.positions.list l
  | [], q, h, hv => by
    cases h
    exact absurd hv (by decide)
  | [e], q, h, hv => by
    have ih := Expr_end_mem e q h hv
    show q ∈ Expr.positions e ++ Expr.positions.list []
    exact List.mem_append_left _ ih
  | e0 :: e :: es, q, h, hv => by
    have ih := Expr_end_mem_ofLast (e :: es) q h hv
    show q ∈ Expr.positions e0 ++ Expr.positions.list (e :: es)
    exact List.mem_append_right _ ih
end

theorem Stmt_positions_list_cons (s : Stmt) (ss : List Stmt) :
    Stmt.positions.list (s :: ss) = s.positions ++ Stmt.positions.list ss := rfl

theorem Stmt_positions_list_sub : ∀ (l : List Stmt) (s : Stmt), s ∈ l →
    ∀ q ∈ s.positions, q ∈ Stmt.positions.list l
  | [], _, h, _, _ => by cases h
  | s0 :: ss, s, h, q, hq => by
    rw [Stmt_positions_list_cons]
    rcases List.mem_cons.1 h with rfl | h
    · exact List.mem_append_left _ hq
    · exact List.mem_append_right _ (Stmt_positions_list_sub ss s h q hq)

theorem Stmt_pos_firstValid : ∀ (s : Stmt) (p : token.Pos), s.Pos = some p → p.IsValid = true →
    firstValid s.positions p
  | .nil, _, h, _ => by cases h
  | .AssignStmt _ lhs a rhs, p, h, hv => by
    have := Expr_pos_firstValid lhs p h hv
    exact firstValid_append _ _ _ this
  | .BlockStmt ⟨_, o, [], c⟩, p, h, hv => by
    cases ho : o.IsValid with
    | true =>
      have : p = o := by
        have h' : (if o.IsValid = true then some o else some NoPos) = some p := h
        rw [ho] at h'
        simpa using h'.symm
      subst this
      exact firstValid_cons _ _ hv
    | false =>
      have h' : (if o.IsValid = true then some o else some NoPos) = some p := h
      rw [ho] at h'
      simp at h'
      subst h'
      exact absurd hv (by decide)
  | .BlockStmt ⟨_, o, first :: rest, c⟩, p, h, hv => by
    cases ho : o.IsValid with
    | true =>
      have : p = o := by
        have h' : (if o.IsValid = true then some o else Stmt.Pos first) = some p := h
        rw [ho] at h'
        simpa using h'.symm
      subst this
      exact firstValid_cons _ _ hv
    | false =>
      have h' : (if o.IsValid = true then some o else Stmt.Pos first) = some p := h
      rw [ho] at h'
      simp at h'
      have ih := Stmt_pos_firstValid first p h' hv
      show firstValid (o :: (Stmt.positions first ++ Stmt.positions.list rest) ++ [c]) p
      exact firstValid_skip _ _ _ ho (firstValid_append _ _ _ (firstValid_append _ _ _ ih))
  | .ExprStmt x, p, h, hv => Expr_pos_firstValid x p h hv
  | .ReturnStmt _ _, p, h, hv => by cases h; exact firstValid_cons _ _ hv
  | .BreakStmt _, p, h, hv => by cases h; exact firstValid_cons _ _ hv
  | .ContinueStmt _, p, h, hv => by cases h; exact firstValid_cons _ _ hv
  | .WhileStmt _ _ _ _, p, h, hv => by cases h; exact firstValid_cons _ _ hv
  | .ForeachStmt _ _ _ _ _ _, p, h, hv => by cases h; exact firstValid_cons _ _ hv
  | .IfStmt (.mk _ _ _ _ _ _), p, h, hv => by cases h; exact firstValid_cons _ _ hv
  | .SwitchStmt _ _ _ _ _ _ _, p, h, hv => by cases h; exact firstValid_cons _ _ hv

theorem Stmt_end_mem (s : Stmt) (q : token.Pos) (h : s.End = some q) (hv : q.IsValid = true) :
    q ∈ s.positions := by
  cases s with
  | nil => cases h
  | AssignStmt l lhs a rhs =>
    have := Expr_end_mem rhs q h hv
    show q ∈ lhs.positions ++ a :: rhs.positions
    simp [this]
  | BlockStmt b =>
    obtain ⟨t, o, l, c⟩ := b
    show q ∈ o :: Stmt.positions.list l ++ [c]
    have h' : (if c.IsValid = true then some c
      else match l.getLast? with
        | some last => Stmt.Pos last
        | none => some NoPos) = some q := h
    cases hc : c.IsValid with
    | true =>
      rw [hc] at h'
      simp at h'
      subst h'
      simp
    | false =>
      rw [hc] at h'
      simp only [Bool.false_eq_true, if_false] at h'
      cases hl : l.getLast? with
      | none =>
        rw [hl] at h'
        simp at h'
        subst h'
        exact absurd hv (by decide)
      | some last =>
        rw [hl] at h'
        have hm : last ∈ l := List.mem_of_getLast?_eq_some hl
        have := firstValid_mem _ _ (Stmt_pos_firstValid last q h' hv)
        have := Stmt_positions_list_sub l last hm q this
        simp [this]
  | ExprStmt x => exact Expr_end_mem x q h hv
  | ReturnStmt r x =>
    have := Expr_end_mem x q h hv
    show q ∈ r :: x.positions
    simp [this]
  | BreakStmt b => cases h; show q ∈ [q]; simp
  | ContinueStmt c => cases h; show q ∈ [q]; simp
  | WhileStmt w cond body e =>
    cases h
    show q ∈ w :: cond.positions ++ Stmt.positions.block body ++ [q]
    simp
  | ForeachStmt f elem i group body e =>
    cases h
    show q ∈ f :: elem.positions ++ i :: Expr.positions.list group
      ++ Stmt.positions.block body ++ [q]
    simp
  | IfStmt s =>
    obtain ⟨i, cond, body, elifs, els, e⟩ := s
    cases h
    show q ∈ i :: cond.positions ++ Stmt.positions.block body ++ IfStmt.positions.list elifs
        ++ Stmt.positions.block els ++ [q]
    simp
  | SwitchStmt s lp var rp cases els e =>
    cases h
    show q ∈ s :: lp :: var.positions ++ rp :: CaseClause.positions.list cases
        ++ Stmt.positions.block els ++ [q]
    simp

end ast

namespace ast
open token

theorem Comment_positions_list_sub : ∀ (l : List (Option Comment)) (c : Comment), some c ∈ l →
    ∀ q ∈ c.positions, q ∈ Comment.positions.list l
  | [], _, h, _, _ => by cases h
  | none :: cs, c, h, q, hq => by
    rcases List.mem_cons.1 h with h | h
    · cases h
    · exact Comment_positions_list_sub cs c h q hq
  | some c0 :: cs, c, h, q, hq => by
    show q ∈ c0.positions ++ Comment.positions.list cs
    rcases List.mem_cons.1 h with h | h
    · cases h
      exact List.mem_append_left _ hq
    · exact List.mem_append_right _ (Comment_positions_list_sub cs c h q hq)

theorem Node_pos_firstValid (n : Node) (p : token.Pos) (h : n.Pos = some p)
    (hv : p.IsValid = true) : firstValid n.positions p := by
  cases n with
  | nil => cases h
  | File f => cases h; exact absurd hv (by decide)
  | Decl d =>
    cases d with
    | nil => cases h
    | FuncDecl d => cases h; exact firstValid_cons _ _ hv
  | Stmt s => exact Stmt_pos_firstValid s p h hv
  | Expr e => exact Expr_pos_firstValid e p h hv
  | Comment c => cases h; exact firstValid_cons _ _ hv
  | CommentGroup g =>
    obtain ⟨l⟩ := g
    cases l with
    | nil => cases h
    | cons c cs =>
      cases c with
      | none => cases h
      | some c => cases h; exact firstValid_cons _ _ hv

theorem Node_end_mem (n : Node) (q : token.Pos) (h : n.End = some q) (hv : q.IsValid = true) :
    q ∈ n.positions := by
  cases n with
  | nil => cases h
  | File f => cases h; exact absurd hv (by decide)
  | Decl d =>
    cases d with
    | nil => cases h
    | FuncDecl d =>
      obtain ⟨f, name, recv, body, e⟩ := d
      cases body with
      | none => cases h
      | some b =>
        obtain ⟨t, o, l, c⟩ := b
        cases h
        show c ∈ f :: (match name with | none => [] | some i => i.positions)
          ++ Expr.positions.list recv ++ (o :: Stmt.positions.list l ++ [c]) ++ [e]
        simp
  | Stmt s => exact Stmt_end_mem s q h hv
  | Expr e => exact Expr_end_mem e q h hv
  | Comment c => cases h; simp [Node.positions, Comment.positions]
  | CommentGroup g =>
    obtain ⟨l⟩ := g
    have h' : (match l.getLast? with
      | none => none
      | some c => c.map Comment.End) = some q := h
    cases hl : l.getLast? with
    | none => rw [hl] at h'; cases h'
    | some c =>
      rw [hl] at h'
      cases c with
      | none => cases h'
      | some c =>
        cases h'
        exact Comment_positions_list_sub l c (List.mem_of_getLast?_eq_some hl) _
          (by simp [Comment.positions])

theorem wrapInt_add (p : Int) (n : Nat) (h1 : go.minInt ≤ p) (h2 : p + (n : Int) ≤ go.maxInt) :
    go.wrapInt (p + (n : Int)) = p + (n : Int) := by
  unfold go.minInt at h1
  unfold go.maxInt at h2
  unfold go.wrapInt
  omega

/-- C20 (as stated, refuted). The call expression with callee `echo` at
position 5 and an empty argument list has its stored positions in source order
and a valid `Pos()`, 5, but its `End()` is `NoPos`, which is smaller. And the
identifier `a` at the largest position has a valid `Pos()`, but the sum in its
`End()` wraps around to the smallest position. -/
theorem C20_call_without_arguments_ends_at_NoPos :
    (Node.Expr (.CallExpr (some ⟨5, "echo"⟩) [])).inSourceOrder
    ∧ (Node.Expr (.CallExpr (some ⟨5, "echo"⟩) [])).Pos = some 5
    ∧ Pos.IsValid 5 = true
    ∧ (Node.Expr (.CallExpr (some ⟨5, "echo"⟩) [])).End = some NoPos
    ∧ ¬ ((5 : token.Pos) ≤ NoPos)
    ∧ (Node.Expr (.Ident ⟨go.maxInt, "a"⟩)).Pos = some go.maxInt
    ∧ Pos.IsValid go.maxInt = true
    ∧ (Node.Expr (.Ident ⟨go.maxInt, "a"⟩)).End = some go.minInt
    ∧ ¬ (go.maxInt ≤ go.minInt) :=
  ⟨by decide, rfl, rfl, rfl, by decide, rfl, by decide, by decide, by decide⟩

/-- C20 (amended). For every node that is not a function declaration and whose
stored positions are in source order, when `Pos()` returns a valid position and
`End()` returns, `End()` is `NoPos` or `End() >= Pos()`. For every identifier,
literal and comment whose position is a value of type `int` and whose position
plus the length of its text does not exceed the largest `int`, `End()` is that
sum and `End() >= Pos()`. -/
theorem C20_end_ge_pos :
    (∀ (n : Node) (p e : token.Pos), (∀ d : FuncDecl, n ≠ .Decl (.FuncDecl d)) →
      n.inSourceOrder → n.Pos = some p → p.IsValid = true → n.End = some e →
      e = NoPos ∨ p ≤ e)
    ∧ (∀ x : Ident, go.minInt ≤ x.NamePos →
        x.NamePos + (x.Name.utf8ByteSize : Int) ≤ go.maxInt →
        (Node.Expr (.Ident x)).Pos = some x.NamePos
        ∧ (Node.Expr (.Ident x)).End = some (x.NamePos + (x.Name.utf8ByteSize : Int))
        ∧ x.NamePos ≤ x.NamePos + (x.Name.utf8ByteSize : Int))
    ∧ (∀ (k : Token) (v : String) (vp : token.Pos), go.minInt ≤ vp →
        vp + (v.utf8ByteSize : Int) ≤ go.maxInt →
        (Node.Expr (.BasicLit k v vp)).Pos = some vp
        ∧ (Node.Expr (.BasicLit k v vp)).End = some (vp + (v.utf8ByteSize : Int))
        ∧ vp ≤ vp + (v.utf8ByteSize : Int))
    ∧ (∀ c : Comment, go.minInt ≤ c.Hash →
        c.Hash + (c.Text.utf8ByteSize : Int) ≤ go.maxInt →
        (Node.Comment c).Pos = some c.Hash
        ∧ (Node.Comment c).End = some (c.Hash + (c.Text.utf8ByteSize : Int))
        ∧ c.Hash ≤ c.Hash + (c.Text.utf8ByteSize : Int)) := by
  refine ⟨?_, ?_, ?_, ?_⟩
  · intro n p e _ ho hp hpv he
    by_cases hev : e.IsValid = true
    · right
      obtain ⟨rest, hr⟩ := Node_pos_firstValid n p hp hpv
      have hm : e ∈ n.positions.filter Pos.IsValid :=
        List.mem_filter.2 ⟨Node_end_mem n e he hev, hev⟩
      unfold Node.inSourceOrder at ho
      rw [hr] at ho hm
      rcases List.mem_cons.1 hm with h | h
      · exact le_of_eq h.symm
      · exact List.rel_of_sorted_cons ho e h
    · left
      simpa [Pos.IsValid] using hev
  · intro x h1 h2
    refine ⟨rfl, ?_, by simp⟩
    show some (go.wrapInt (x.NamePos + (x.Name.utf8ByteSize : Int))) = _
    rw [wrapInt_add _ _ h1 h2]
  · intro k v vp h1 h2
    refine ⟨rfl, ?_, by simp⟩
    show some (go.wrapInt (vp + (v.utf8ByteSize : Int))) = _
    rw [wrapInt_add _ _ h1 h2]
  · intro c h1 h2
    refine ⟨rfl, ?_, by simp⟩
    show some (go.wrapInt (c.Hash + (c.Text.utf8ByteSize : Int))) = _
    rw [wrapInt_add _ _ h1 h2]

/-- C20 (amended), at the call `echo hi` with `echo` at position 5 and `hi` at
position 10, whose `Pos()` is 5 and `End()` is 12, at the identifier `hi` and
the word `hi` at position 10 and at the comment `# hi` at position 1. -/
theorem C20_end_ge_pos_witness :
    ((∀ d : FuncDecl,
        Node.Expr (.CallExpr (some ⟨5, "echo"⟩) [.Ident ⟨10, "hi"⟩]) ≠ .Decl (.FuncDecl d))
      ∧ (Node.Expr (.CallExpr (some ⟨5, "echo"⟩) [.Ident ⟨10, "hi"⟩])).inSourceOrder
      ∧ (Node.Expr (.CallExpr (some ⟨5, "echo"⟩) [.Ident ⟨10, "hi"⟩])).Pos = some 5
      ∧ Pos.IsValid 5 = true
      ∧ (Node.Expr (.CallExpr (some ⟨5, "echo"⟩) [.Ident ⟨10, "hi"⟩])).End = some 12
      ∧ ((12 : token.Pos) = NoPos ∨ (5 : token.Pos) ≤ 12))
    ∧ ((Node.Expr (.Ident ⟨10, "hi"⟩)).Pos = some 10
      ∧ (Node.Expr (.Ident ⟨10, "hi"⟩)).End = some (10 + 2)
      ∧ (10 : token.Pos) ≤ 10 + 2)
    ∧ ((Node.Expr (.BasicLit WORD "hi" 10)).Pos = some 10
      ∧ (Node.Expr (.BasicLit WORD "hi" 10)).End = some (10 + 2)
      ∧ (10 : token.Pos) ≤ 10 + 2)
    ∧ ((Node.Comment ⟨1, "# hi"⟩).Pos = some 1
      ∧ (Node.Comment ⟨1, "# hi"⟩).End = some (1 + 4)
      ∧ (1 : token.Pos) ≤ 1 + 4) :=
  ⟨⟨(fun _ h => by cases h), by decide, rfl, rfl, by decide,
      C20_end_ge_pos.1 (.Expr (.CallExpr (some ⟨5, "echo"⟩) [.Ident ⟨10, "hi"⟩])) 5 12
        (fun _ h => by cases h) (by decide) rfl rfl (by decide)⟩,
    C20_end_ge_pos.2.1 ⟨10, "hi"⟩ (by decide) (by decide),
    C20_end_ge_pos.2.2.1 WORD "hi" 10 (by decide) (by decide),
    C20_end_ge_pos.2.2.2 ⟨1, "# hi"⟩ (by decide) (by decide)⟩

end ast

namespace ast
open token

theorem foldlM_ident {α : Type} (g : Proc → α → Option Proc)
    (hident : ∀ s r x, g s x = some r → r.p.ident = s.p.ident) :
    ∀ (l : List α) (s r : Proc), l.foldlM g s = some r → r.p.ident = s.p.ident
  | [], s, r, h => by cases h; rfl
  | x :: rest, s, r, h => by
    simp only [List.foldlM_cons, Option.bind_eq_bind, Option.bind_eq_some] at h
    obtain ⟨s1, h1, h2⟩ := h
    rw [foldlM_ident g hident rest s1 r h2, hident s s1 x h1]

/-- C21. On the block without delimiters whose only statement is the expression
statement `hi` at position 10, `Pos()` is that of the statement, 10, but `End()`
is again the statement's `Pos()`, 10, where the statement's `End()` is 12; on the
block without delimiters and without statements both are `NoPos`. -/
theorem C21_bare_block_ends_at_last_pos :
    (Stmt.BlockStmt (bareBlock [.ExprStmt (.Ident ⟨10, "hi"⟩)])).Pos = some 10
    ∧ (Stmt.ExprStmt (.Ident ⟨10, "hi"⟩)).Pos = some 10
    ∧ (Stmt.ExprStmt (.Ident ⟨10, "hi"⟩)).End = some 12
    ∧ (Stmt.BlockStmt (bareBlock [.ExprStmt (.Ident ⟨10, "hi"⟩)])).End = some 10
    ∧ (Stmt.BlockStmt (bareBlock [])).Pos = some NoPos
    ∧ (Stmt.BlockStmt (bareBlock [])).End = some NoPos :=
  ⟨rfl, rfl, by decide, rfl, rfl, rfl⟩

/-- C22. The position `-1` is valid for `IsValid`, which only compares with
`NoPos`, and `NoPos` is not smaller than it. -/
theorem C22_negative_pos_is_valid :
    Pos.IsValid (-1) = true ∧ ¬ (NoPos < (-1 : token.Pos)) :=
  ⟨rfl, by decide⟩

/-- C23. For every node and every state of the printer, whatever its
indentation, when `printer.Visit` returns, the field `ident` has the value it
had before the call. -/
theorem C23_visit_restores_ident (fields : Expr → String) (s r : Proc) (node : Node)
    (h : printer.Visit fields s node = some r) : r.p.ident = s.p.ident := by
  cases node with
  | File f =>
    have h' : (List.foldlM (printer.VisitDecl fields) s f.Decls).bind
        (fun s1 => List.foldlM (printer.VisitStmt fields) s1 f.Stmts) = some r := h
    simp only [Option.bind_eq_some] at h'
    obtain ⟨s1, h1, h2⟩ := h'
    rw [foldlM_ident _ (fun s r x => VisitStmt_ident fields x s r) _ _ _ h2,
      foldlM_ident _ (fun s r x => VisitDecl_ident fields x s r) _ _ _ h1]
  | Decl d => exact VisitDecl_ident fields d s r h
  | Stmt st => exact VisitStmt_ident fields st s r h
  | nil => cases h; rfl
  | Expr e => cases h; rfl
  | Comment c => cases h; rfl
  | CommentGroup g => cases h; rfl

/-- C23, at the file that holds `sampleFunc` and `sampleIf`, printed from the
indentation of two blanks. -/
theorem C23_visit_restores_ident_witness :
    ∃ r, printer.Visit (fun _ => "") { p := { output := "", ident := "  ", temp := "" }, stderr := "" }
        (.File ⟨none, [sampleIf], [sampleFunc]⟩) = some r
      ∧ r.p.ident = "  " :=
  ⟨_, rfl, C23_visit_restores_ident (fun _ => "")
    { p := { output := "", ident := "  ", temp := "" }, stderr := "" } _
    (.File ⟨none, [sampleIf], [sampleFunc]⟩) rfl⟩

/-- C24. In the body of the loop `sampleWhile`, one level deep, the assignment
`a=b` is printed after two blanks and the expression statement `echo` after
three: `println` passes the indentation to `fmt.Fprintln` as an operand of its
own, which puts a blank after it, and `println_c` does not. -/
theorem C24_println_adds_a_blank (fields : Expr → String) :
    String' fields (.Stmt sampleWhile) = some "while c\n  a=b\n   echo\nend\n" :=
  rfl

/-- C25. On the parameter expansion over the identifier `v` whose only payload
is a substring, `ExprStr` writes the two-part form for offset 2 and length 5 and
the offset-only form for offset 3 and length 3, but after the reflection dump of
the node `Var`, so the texts are not `${v:2:5}` and `${v:3}`. -/
theorem C25_substring_v (fields : Expr → String) :
    ExprStr fields (.ParamExp { ParamExp.plain 0 0 (.Ident ⟨0, "v"⟩) 0 with
        SubstringExp := some ⟨0, 2, 0, 5⟩ })
      = some "$\x7b&\x7b%!s(token.Pos=0) v\x7d:2:5\x7d"
    ∧ ExprStr fields (.ParamExp { ParamExp.plain 0 0 (.Ident ⟨0, "v"⟩) 0 with
        SubstringExp := some ⟨0, 3, 0, 3⟩ })
      = some "$\x7b&\x7b%!s(token.Pos=0) v\x7d:3\x7d"
    ∧ ExprStr fields (.ParamExp { ParamExp.plain 0 0 (.Ident ⟨0, "v"⟩) 0 with
        SubstringExp := some ⟨0, 2, 0, 5⟩ })
      ≠ some "$\x7bv:2:5\x7d"
    ∧ ExprStr fields (.ParamExp { ParamExp.plain 0 0 (.Ident ⟨0, "v"⟩) 0 with
        SubstringExp := some ⟨0, 3, 0, 3⟩ })
      ≠ some "$\x7bv:3\x7d" := by
  have h1 : ExprStr fields (.ParamExp { ParamExp.plain 0 0 (.Ident ⟨0, "v"⟩) 0 with
        SubstringExp := some ⟨0, 2, 0, 5⟩ })
      = some "$\x7b&\x7b%!s(token.Pos=0) v\x7d:2:5\x7d" := rfl
  have h2 : ExprStr fields (.ParamExp { ParamExp.plain 0 0 (.Ident ⟨0, "v"⟩) 0 with
        SubstringExp := some ⟨0, 3, 0, 3⟩ })
      = some "$\x7b&\x7b%!s(token.Pos=0) v\x7d:3\x7d" := rfl
  refine ⟨h1, h2, ?_, ?_⟩
  · rw [h1]; decide
  · rw [h2]; decide

/-- C26. For every return statement without a value expression, `Pos()` returns
the position of `return` and `End()` panics: it calls `End()` on the nil
expression. -/
theorem C26_return_without_value_panics (r : token.Pos) :
    (Stmt.ReturnStmt r .nil).Pos = some r ∧ (Stmt.ReturnStmt r .nil).End = none :=
  ⟨rfl, rfl⟩

end ast
